import Mathlib

/-!
Verification of `src/lib/sheetToGuesstimate.ts` (Ferminator).

Strings are modelled as `List Char` (JS strings; the repository only
manipulates ASCII text, so UTF-16 code-unit details do not matter here).
Each regex used by the source is embedded as a bespoke matcher that
reproduces the JS engine's leftmost, greedy, global-scan semantics for
that particular pattern.  JS numbers that flow through the translator
(`parseFloat`, division by 100, `toString`) are modelled as exact decimal
values rendered the way JS prints short decimals; the source only feeds
short percentage literals through this path.
-/

namespace Ferminator

abbrev Str := List Char

def str (s : String) : Str := s.data

/-- `p` is a prefix of `s` (JS `String.startsWith`). -/
def isPfx : Str → Str → Bool
  | [], _ => true
  | _ :: _, [] => false
  | p :: ps, c :: cs => p == c && isPfx ps cs

/-- `pat` occurs somewhere in `s` (JS `String.includes`). -/
def containsSub (pat : Str) : Str → Bool
  | [] => isPfx pat []
  | c :: cs => isPfx pat (c :: cs) || containsSub pat cs

def toUpperStr (s : Str) : Str := s.map Char.toUpper

/-- Split `s` into its maximal run of characters satisfying `p` and the rest. -/
def takeWhileSplit (p : Char → Bool) : Str → Str × Str
  | [] => ([], [])
  | c :: cs =>
    if p c then
      let r := takeWhileSplit p cs
      (c :: r.1, r.2)
    else ([], c :: cs)

/-- Fuel-driven worker for `replAll`; fuel `s.length + 1` always suffices. -/
def replAllGo (pat repl : Str) : Nat → Str → Str
  | 0, s => s
  | _ + 1, [] => if pat == [] then repl else []
  | fuel + 1, c :: cs =>
    if pat == [] then repl ++ c :: replAllGo pat repl fuel cs
    else if isPfx pat (c :: cs) then
      repl ++ replAllGo pat repl fuel ((c :: cs).drop pat.length)
    else c :: replAllGo pat repl fuel cs

/-- JS `String.replaceAll` with a plain-string pattern. -/
def replAll (pat repl s : Str) : Str := replAllGo pat repl (s.length + 1) s

/-- JS `String.replace` with a plain-string pattern (first occurrence only). -/
def replFirst (pat repl : Str) : Str → Str
  | [] => if pat == [] then repl else []
  | c :: cs =>
    if pat == [] then repl ++ c :: cs
    else if isPfx pat (c :: cs) then repl ++ (c :: cs).drop pat.length
    else c :: replFirst pat repl cs

/-- Result of matching a regex at one position: the matched text, its
capture groups, and the remainder of the string after the match. -/
structure MRes where
  whole : Str
  groups : List Str
  rest : Str
deriving Repr, DecidableEq

/-- A matcher receives the character just before the current position (for
lookbehind) and the remaining input, and attempts a match anchored there. -/
abbrev Matcher := Option Char → Str → Option MRes

/-- Global scan (JS `matchAll` / the match side of `replaceAll(regex, ..)`):
try the matcher at each position, jumping over each (non-empty) match.
Fuel `s.length + 1` always suffices. -/
def scanAll (m : Matcher) : Nat → Option Char → Str → List MRes
  | 0, _, _ => []
  | _ + 1, _, [] => []
  | fuel + 1, prev, c :: cs =>
    match m prev (c :: cs) with
    | some r =>
      if r.whole == [] then scanAll m fuel (some c) cs
      else r :: scanAll m fuel r.whole.getLast? r.rest
    | none => scanAll m fuel (some c) cs

/-- JS `String.replaceAll` with a regex pattern: rebuild the string,
replacing each match by `render` applied to it. -/
def rxRepl (m : Matcher) (render : MRes → Str) : Nat → Option Char → Str → Str
  | 0, _, s => s
  | _ + 1, _, [] => []
  | fuel + 1, prev, c :: cs =>
    match m prev (c :: cs) with
    | some r =>
      if r.whole == [] then c :: rxRepl m render fuel (some c) cs
      else render r ++ rxRepl m render fuel r.whole.getLast? r.rest
    | none => c :: rxRepl m render fuel (some c) cs

def rxReplAll (m : Matcher) (render : MRes → Str) (s : Str) : Str :=
  rxRepl m render (s.length + 1) none s

def scanMatches (m : Matcher) (s : Str) : List MRes :=
  scanAll m (s.length + 1) none s

/-! ### JS numbers (exact-decimal model) -/

/-- A JS number reachable in the translator: `NaN` or an exact decimal
`± m / 10 ^ k`. -/
inductive JNum where
  | nan : JNum
  | val : Bool → Nat → Nat → JNum
deriving Repr, DecidableEq

/-- JS whitespace as used by `trim` / `Number` / `parseFloat` (ASCII forms
plus NBSP; the repository never feeds other Unicode spaces through). -/
def jsWs (c : Char) : Bool :=
  c == ' ' || c == '\t' || c == '\n' || c == '\r' || c == '\x0b' || c == '\x0c' ||
    c == '\xa0'

def digitsToNat (s : Str) : Nat := s.foldl (fun a c => a * 10 + (c.toNat - 48)) 0

/-- JS `parseFloat`, restricted to the sign/digits/dot forms that reach it
here (no exponent forms occur in the inputs the source feeds it). -/
def parseFloatJS (s : Str) : JNum :=
  let s1 := (takeWhileSplit jsWs s).2
  let signAndRest : Bool × Str :=
    match s1 with
    | '-' :: r => (true, r)
    | '+' :: r => (false, r)
    | r => (false, r)
  let neg := signAndRest.1
  let ip := takeWhileSplit Char.isDigit signAndRest.2
  match ip.2 with
  | '.' :: r =>
    let fp := takeWhileSplit Char.isDigit r
    if ip.1 == [] && fp.1 == [] then .nan
    else .val neg (digitsToNat (ip.1 ++ fp.1)) fp.1.length
  | _ => if ip.1 == [] then .nan else .val neg (digitsToNat ip.1) 0

/-- Division by 100 on the exact-decimal model (a two-place decimal shift). -/
def div100 : JNum → JNum
  | .nan => .nan
  | .val n m k => .val n m (k + 2)

/-- Drop trailing zero decimals: `(m, k) ↦ (m / 10, k - 1)` while possible. -/
def stripZeros : Nat → Nat → Nat × Nat
  | m, 0 => (m, 0)
  | m, k + 1 => if m % 10 == 0 then stripZeros (m / 10) k else (m, k + 1)

def digitChar (d : Nat) : Char := Char.ofNat (48 + d)

/-- Decimal digits of a natural number (most significant first); the fuel
`n + 1` always suffices since `n / 10` shrinks strictly below `n ≥ 10`. -/
def natDigitsGo : Nat → Nat → Str
  | 0, _ => []
  | fuel + 1, n =>
    if n < 10 then [digitChar n]
    else natDigitsGo fuel (n / 10) ++ [digitChar (n % 10)]

def natDigits (n : Nat) : Str := natDigitsGo (n + 1) n

/-- JS `Number.prototype.toString` on the exact-decimal model: canonical
decimal without trailing zeros, switching to exponential below `1e-6`
exactly as JS does. -/
def renderJNum : JNum → Str
  | .nan => str "NaN"
  | .val neg m0 k0 =>
    let mk := stripZeros m0 k0
    let m := mk.1
    let k := mk.2
    if m == 0 then str "0"
    else
      let sgn : Str := if neg then ['-'] else []
      let ds := natDigits m
      if k == 0 then sgn ++ ds
      else if k < ds.length then
        sgn ++ ds.take (ds.length - k) ++ '.' :: ds.drop (ds.length - k)
      else if k ≤ ds.length + 5 then
        sgn ++ str "0." ++ List.replicate (k - ds.length) '0' ++ ds
      else
        sgn ++
          (match ds with
            | [d] => [d]
            | d :: rest => d :: '.' :: rest
            | [] => []) ++
          str "e-" ++ natDigits (k - ds.length + 1)

/-! ### JS numeric-string classification (`isNaN(x)` on a string) -/

def trimJS (t : Str) : Str :=
  ((takeWhileSplit jsWs ((takeWhileSplit jsWs t).2).reverse).2).reverse

def hexDigit (c : Char) : Bool :=
  c.isDigit || ('a' ≤ c && c ≤ 'f') || ('A' ≤ c && c ≤ 'F')

/-- Optional `[eE][+-]?digits` ending the string. -/
def expTail (s : Str) : Bool :=
  match s with
  | [] => true
  | e :: r =>
    if e == 'e' || e == 'E' then
      let r2 : Str :=
        match r with
        | '+' :: x => x
        | '-' :: x => x
        | x => x
      let d := takeWhileSplit Char.isDigit r2
      !(d.1 == []) && d.2 == []
    else false

/-- Decimal body of a JS numeric literal: `digits(.digits*)?` or `.digits`,
followed by an optional exponent, consuming the whole string. -/
def jsNumericCore (s : Str) : Bool :=
  let ip := takeWhileSplit Char.isDigit s
  match ip.1, ip.2 with
  | [], '.' :: r =>
    let fp := takeWhileSplit Char.isDigit r
    !(fp.1 == []) && expTail fp.2
  | [], _ => false
  | _ :: _, '.' :: r => expTail (takeWhileSplit Char.isDigit r).2
  | _ :: _, r => expTail r

def signedNumericCore (s : Str) : Bool :=
  let s2 : Str :=
    match s with
    | '+' :: r => r
    | '-' :: r => r
    | r => r
  s2 == str "Infinity" || jsNumericCore s2

/-- `!isNaN(t)` for a string `t`: whether `Number(t)` is not `NaN`. -/
def jsIsNumeric (t : Str) : Bool :=
  let s := trimJS t
  if s == [] then true
  else
    match s with
    | '0' :: x :: r =>
      if x == 'x' || x == 'X' then !(r == []) && r.all hexDigit
      else if x == 'o' || x == 'O' then
        !(r == []) && r.all (fun c => '0' ≤ c && c ≤ '7')
      else if x == 'b' || x == 'B' then
        !(r == []) && r.all (fun c => c == '0' || c == '1')
      else signedNumericCore s
    | _ => signedNumericCore s

/-! ### Percentage literals -/

/-- Matcher for `/([0-9.]+)%/g`: a maximal run of digits/dots followed by
`%` (the character class cannot contain `%`, so greediness is exact). -/
def pctM : Matcher := fun _ s =>
  match takeWhileSplit (fun c => c.isDigit || c == '.') s with
  | ([], _) => none
  | (run, rest) =>
    match rest with
    | '%' :: rest2 => some ⟨run ++ ['%'], [run], rest2⟩
    | _ => none

/-- The replacement text `${parseFloat(m) / 100}` for one percentage match. -/
def pctRepl (g : Str) : Str := renderJNum (div100 (parseFloatJS g))

/-- `evalPercentage` (source lines 392-401): collect the `/([0-9.]+)%/g`
matches of the original formula, then `replaceAll` each matched text by its
value divided by 100. -/
def evalPercentage (formula : Str) : Str :=
  let ms := scanMatches pctM formula
  ms.foldl (fun f r => replAll r.whole (pctRepl (r.groups.headD [])) f) formula

/-! ### Range expansion and the function-inlining passes -/

/-- JS `parseInt(s, 10)`: trim, optional sign, leading decimal digits. -/
def intDigits? (s : Str) : Option Nat :=
  match takeWhileSplit Char.isDigit s with
  | ([], _) => none
  | (ds, _) => some (digitsToNat ds)

def parseIntJS (s : Str) : Option Int :=
  let s1 := (takeWhileSplit jsWs s).2
  match s1 with
  | '-' :: r => (intDigits? r).map (fun n => -(n : Int))
  | '+' :: r => (intDigits? r).map (fun n => (n : Int))
  | r => (intDigits? r).map (fun n => (n : Int))

/-- The JS template rendering `${n}` of an integer. -/
def intStr (i : Int) : Str :=
  if i < 0 then '-' :: natDigits (-i).toNat else natDigits i.toNat

/-- `deRange` (source lines 267-286): rectangular expansion of `start:end`,
advancing the leading letter by character code.  An unparsable number part
(`parseInt` returning `NaN`) empties the inner loop, and an empty endpoint
empties the outer loop, exactly as the JS comparisons with
`NaN`/`undefined` do. -/
def deRange (start e : Str) : List Str :=
  match start, e with
  | s0 :: srest, e0 :: erest =>
    let numbers : List Int :=
      match parseIntJS srest, parseIntJS erest with
      | some a, some b => (List.range (b - a + 1).toNat).map (fun i => a + i)
      | _, _ => []
    ((List.range (e0.toNat + 1 - s0.toNat)).map (fun i => Char.ofNat (s0.toNat + i))).flatMap
      (fun letter => numbers.map (fun n => letter :: intStr n))
  | _, _ => []

/-- Case-insensitive literal: matched text keeps the input's case. -/
def takeCI (pat : Str) (s : Str) : Option (Str × Str) :=
  let t := s.take pat.length
  if t.length == pat.length && toUpperStr t == toUpperStr pat then
    some (t, s.drop pat.length)
  else none

/-- `[A-Z][0-9]+` (case-sensitive), digits greedy. -/
def matchAddrU (s : Str) : Option (Str × Str) :=
  match s with
  | c :: cs =>
    if c.isUpper then
      match takeWhileSplit Char.isDigit cs with
      | ([], _) => none
      | (ds, rest) => some (c :: ds, rest)
    else none
  | [] => none

/-- `[A-Z][0-9]+` under the `i` flag (any ASCII letter). -/
def matchAddrCI (s : Str) : Option (Str × Str) :=
  match s with
  | c :: cs =>
    if c.isAlpha then
      match takeWhileSplit Char.isDigit cs with
      | ([], _) => none
      | (ds, rest) => some (c :: ds, rest)
    else none
  | [] => none

def takeChar (c : Char) : Str → Option Str
  | x :: xs => if x == c then some xs else none
  | [] => none

/-- Matcher for `/SUMPRODUCT\(([A-Z][0-9]+):([A-Z][0-9]+),([A-Z][0-9]+):([A-Z][0-9]+)\)/gi`. -/
def sumprodM : Matcher := fun _ s => do
  let (lit, r0) ← takeCI (str "SUMPRODUCT(") s
  let (g1, r1) ← matchAddrCI r0
  let r2 ← takeChar ':' r1
  let (g2, r3) ← matchAddrCI r2
  let r4 ← takeChar ',' r3
  let (g3, r5) ← matchAddrCI r4
  let r6 ← takeChar ':' r5
  let (g4, r7) ← matchAddrCI r6
  let r8 ← takeChar ')' r7
  pure ⟨lit ++ g1 ++ ':' :: g2 ++ ',' :: g3 ++ ':' :: g4 ++ [')'],
        [g1, g2, g3, g4], r8⟩

/-- Replacement loop of `inlineSUMPRODUCT`: on a length mismatch the JS
`return formula` exits with the replacements made so far. -/
def sumprodGo : List MRes → Str → Str
  | [], f => f
  | r :: rs, f =>
    match r.groups with
    | [g1, g2, g3, g4] =>
      let sumRange := deRange g1 g2
      let prodRange := deRange g3 g4
      if sumRange.length == 0 || sumRange.length ≠ prodRange.length then f
      else
        let inlined := (sumRange.zip prodRange).foldl
          (fun acc p => acc ++ '+' :: p.1 ++ '*' :: p.2) []
        sumprodGo rs (replAll r.whole ('(' :: inlined ++ [')']) f)
    | _ => f

/-- `inlineSUMPRODUCT` (source lines 330-356).  (`matchAll` never returns a
falsy value, so the `if (!matches)` guard in the source is vacuous.) -/
def inlineSUMPRODUCT (formula : Str) : Str :=
  sumprodGo (scanMatches sumprodM formula) formula

/-- JS `String.split` on a single-character separator. -/
def splitOnChar (sep : Char) : Str → List Str
  | [] => [[]]
  | c :: cs =>
    let r := splitOnChar sep cs
    if c == sep then [] :: r
    else (c :: r.headD []) :: r.tail

/-- JS `Array.join` with a single-character separator. -/
def joinSep (sep : Char) : List Str → Str
  | [] => []
  | [x] => x
  | x :: xs => x ++ sep :: joinSep sep xs

/-- Matcher for `/AVERAGE\(([^()]+)\)/gi`. -/
def avgM : Matcher := fun _ s =>
  match takeCI (str "AVERAGE(") s with
  | none => none
  | some (lit, r0) =>
    match takeWhileSplit (fun c => !(c == '(') && !(c == ')')) r0 with
    | ([], _) => none
    | (body, rest) =>
      match rest with
      | ')' :: r2 => some ⟨lit ++ body ++ [')'], [body], r2⟩
      | _ => none

def avgArg (arg : Str) : List Str :=
  if containsSub [':'] arg then
    let ps := splitOnChar ':' arg
    deRange (ps.headD []) (ps.tail.headD [])
  else [arg]

def avgGo : List MRes → Str → Str
  | [], f => f
  | r :: rs, f =>
    let args := (splitOnChar ',' (r.groups.headD [])).flatMap avgArg
    avgGo rs (replAll r.whole
      ('(' :: '(' :: joinSep '+' args ++ ')' :: '/' :: natDigits args.length ++ [')']) f)

/-- `inlineAverage` (source lines 373-390). -/
def inlineAverage (formula : Str) : Str :=
  avgGo (scanMatches avgM formula) formula

/-- Literal (case-sensitive) regex such as `/SUM/g`. -/
def litM (pat : Str) : Matcher := fun _ s =>
  if !(pat == []) && isPfx pat s then some ⟨pat, [], s.drop pat.length⟩ else none

/-- Body of `/_SUM\(([A-Z][0-9]+,?)+\)/`: one or more address-with-optional-
comma repetitions, then `)`.  Returns the consumed text including `)`. -/
def commaSumBody : Nat → Str → Option (Str × Str)
  | 0, _ => none
  | fuel + 1, s =>
    match matchAddrU s with
    | none => none
    | some (a, r) =>
      match r with
      | ',' :: r2 =>
        (match commaSumBody fuel r2 with
         | some (c, rest) => some (a ++ ',' :: c, rest)
         | none =>
           match r2 with
           | ')' :: rest => some (a ++ [',', ')'], rest)
           | _ => none)
      | ')' :: rest => some (a ++ [')'], rest)
      | _ =>
        match commaSumBody fuel r with
        | some (c, rest) => some (a ++ c, rest)
        | none => none

def commaSumM : Matcher := fun _ s =>
  if isPfx (str "_SUM(") s then
    match commaSumBody s.length (s.drop 5) with
    | some (c, rest) => some ⟨str "_SUM(" ++ c, [], rest⟩
    | none => none
  else none

/-- Matcher for `/_SUM\([A-Z][0-9]+:[A-Z][0-9]+\)/g`. -/
def rangeSumM : Matcher := fun _ s =>
  if isPfx (str "_SUM(") s then
    match matchAddrU (s.drop 5) with
    | some (a1, r1) =>
      (match r1 with
       | ':' :: r2 =>
         (match matchAddrU r2 with
          | some (a2, r3) =>
            (match r3 with
             | ')' :: rest =>
               some ⟨str "_SUM(" ++ a1 ++ ':' :: a2 ++ [')'], [a1, a2], rest⟩
             | _ => none)
          | none => none)
       | _ => none)
    | none => none
  else none

/-- Expansion loop over the matched range-`SUM`s.  A range whose two column
letters differ makes the JS `return formula` exit with any earlier
replacements kept.  (The `isNaN` guard in the source is vacuous: the match
shape guarantees pure digit strings.) -/
def sumRangeGo : List MRes → Str → Str
  | [], f => f
  | r :: rs, f =>
    let contents := (r.whole.drop 5).dropLast
    let ps := splitOnChar ':' contents
    match ps.headD [], ps.tail.headD [] with
    | s0 :: srest, e0 :: erest =>
      if s0 ≠ e0 then f
      else
        let sn := digitsToNat srest
        let en := digitsToNat erest
        let newSum := (List.range (en - sn)).foldl
          (fun acc i => acc ++ '+' :: s0 :: natDigits (sn + 1 + i))
          (s0 :: natDigits sn)
        sumRangeGo rs (replAll r.whole ('(' :: newSum ++ [')']) f)
    | _, _ => f

/-- `inlineSum` (source lines 288-328). -/
def inlineSum (formula : Str) : Str :=
  if !containsSub (str "SUM") (toUpperStr formula) then formula
  else
    let f := replAll (str "SUM") (str "_SUM") (toUpperStr formula)
    let sumsNumber := (scanMatches (litM (str "SUM")) f).length
    let commaSums := scanMatches commaSumM f
    if commaSums.length == sumsNumber then replAll (str "_SUM") (str "sum") f
    else
      let sums := scanMatches rangeSumM f
      if sums.length ≠ sumsNumber then f
      else sumRangeGo sums f

/-- Matcher for `/LN\(([^()]+)\)/gi`. -/
def lnM : Matcher := fun _ s =>
  match takeCI (str "LN(") s with
  | none => none
  | some (lit, r0) =>
    match takeWhileSplit (fun c => !(c == '(') && !(c == ')')) r0 with
    | ([], _) => none
    | (body, rest) =>
      match rest with
      | ')' :: r2 => some ⟨lit ++ body ++ [')'], [body], r2⟩
      | _ => none

def lnRender (r : MRes) : Str :=
  str "(1 / log10(2.71828) * log10(" ++ r.groups.headD [] ++ str "))"

/-- `replaceLN` (source lines 358-363). -/
def replaceLN (f : Str) : Str := rxReplAll lnM lnRender f

/-- Splits at the last `)` of a comma-free run, for the backtracking step
of the `PV` pattern's third greedy group. -/
def lastParenSplit : Str → Option (Str × Str)
  | [] => none
  | c :: cs =>
    match lastParenSplit cs with
    | some (b, a) => some (c :: b, a)
    | none => if c == ')' then some ([], cs) else none

/-- Matcher for `/PV\(([^,]+),([^,]+),([^,]+)(?:,,1)?\)/gi`: the third group
is greedy, so it either swallows the whole comma-free run when `,,1)`
follows, or backtracks to end just before the run's last `)`. -/
def pvM : Matcher := fun _ s =>
  match takeCI (str "PV(") s with
  | none => none
  | some (lit, r0) =>
    match takeWhileSplit (fun c => !(c == ',')) r0 with
    | ([], _) => none
    | (g1, rest1) =>
      match rest1 with
      | ',' :: r1 =>
        (match takeWhileSplit (fun c => !(c == ',')) r1 with
         | ([], _) => none
         | (g2, rest2) =>
           match rest2 with
           | ',' :: r2 =>
             (match takeWhileSplit (fun c => !(c == ',')) r2 with
              | ([], _) => none
              | (run, rest3) =>
                if isPfx (str ",,1)") rest3 then
                  some ⟨lit ++ g1 ++ ',' :: g2 ++ ',' :: run ++ str ",,1)",
                        [g1, g2, run], rest3.drop 4⟩
                else
                  match lastParenSplit run with
                  | some (g3, tail) =>
                    if g3 == [] then none
                    else
                      some ⟨lit ++ g1 ++ ',' :: g2 ++ ',' :: g3 ++ [')'],
                            [g1, g2, g3], tail ++ rest3⟩
                  | none => none)
           | _ => none)
      | _ => none

def pvRender (r : MRes) : Str :=
  match r.groups with
  | [g1, g2, g3] =>
    str "(-(" ++ g3 ++ str ")*(1-(1+(" ++ g1 ++ str "))^(-(" ++ g2 ++
      str ")))/(" ++ g1 ++ str "))"
  | _ => r.whole

/-- `replacePV` (source lines 365-371). -/
def replacePV (f : Str) : Str := rxReplAll pvM pvRender f

/-- The FormulaTranslator pipeline: the pass sequence applied to a cell's
formula at source lines 126-131, in source order. -/
def translate (f : Str) : Str :=
  replacePV (replaceLN (inlineSum (inlineAverage (inlineSUMPRODUCT (evalPercentage f)))))

/-! ### Address normalization (source lines 133-157) -/

/-- `sheetName.replace(/\W/g, "")`: keep word characters only. -/
def sanitizeSheet (s : Str) : Str := s.filter (fun c => c.isAlphanum || c == '_')

/-- `makePrefix`: sanitized sheet name with `!` appended. -/
def mkPfxS (s : Str) : Str := sanitizeSheet s ++ ['!']

/-- Matcher for `/([A-Z][0-9]+)/g`. -/
def bareRefM : Matcher := fun _ s =>
  (matchAddrU s).map (fun p => ⟨p.1, [p.1], p.2⟩)

/-- Matcher for `/(?<!!)([A-Z][0-9]+)/g`: same, with a one-character
negative lookbehind for `!`. -/
def bareRefNoBangM : Matcher := fun prev s =>
  if prev == some '!' then none else bareRefM prev s

/-- Matcher for ``new RegExp(`(${pfx}[A-Z][0-9]+)`, "g")`` where `pfx` is a
sanitized sheet prefix (word characters and `!` only, hence literal). -/
def litPfxRefM (pfx : Str) : Matcher := fun _ s =>
  if isPfx pfx s then
    (matchAddrU (s.drop pfx.length)).map (fun p => ⟨pfx ++ p.1, [pfx ++ p.1], p.2⟩)
  else none

/-- Matcher for ``new RegExp(`${sheetName}!`, "gi")``, modelling the sheet
name as a literal: faithful whenever the (possibly quoted) sheet name
contains no regex metacharacters, which is the domain considered here.
Outside that domain the source escapes nothing, so a metacharacter name
mis-matches, and a name forming an invalid pattern (for example a sheet
named `Ha(`) makes the `RegExp` constructor itself throw a SyntaxError
that aborts grid construction — a fallible path this total model does
not represent. -/
def ciLitM (pat : Str) : Matcher := fun _ s =>
  if pat == [] then none
  else
    match takeCI pat s with
    | some (t, rest) => some ⟨t, [], rest⟩
    | none => none

/-- The replacement `"${metric:$1}"`. -/
def wrapRender (r : MRes) : Str := str "$\x7bmetric:" ++ r.whole ++ ['\x7d']

def apos : Char := Char.ofNat 39

/-- Source lines 142-144: a sheet name containing a space is wrapped in
single quotes, its first quote doubled (`String.replace`, not
`replaceAll`). -/
def quoteSheet (s : Str) : Str :=
  if containsSub [' '] s then apos :: replFirst [apos] [apos, apos] s ++ [apos]
  else s

/-- One iteration of the per-sheet loop (source lines 141-154). -/
def sheetLoopStep (f : Str) (sheetName : Str) : Str :=
  let sn := quoteSheet sheetName
  let pfx := mkPfxS sn
  let f2 := rxReplAll (ciLitM (sn ++ ['!'])) (fun _ => pfx) f
  rxReplAll (litPfxRefM pfx) wrapRender f2

/-- The multi-sheet normalization of a formula (source lines 133-154,
formula part): prefix bare references with the current sheet, then for
every sheet rewrite its `Name!` prefixes and wrap prefixed references. -/
def normalizeMulti (curSheet : Str) (sheetNames : List Str) (f : Str) : Str :=
  let f1 := rxReplAll bareRefNoBangM (fun r => mkPfxS curSheet ++ r.whole) f
  sheetNames.foldl sheetLoopStep f1

/-! ### Cell extraction (`getCellData`, source lines 91-167) -/

/-- The anchored percentage-text test `/^-?\s?\d+\.?\d*%$/` (source line 112). -/
def pctLiteralTest (t : Str) : Bool :=
  let s1 : Str :=
    match t with
    | '-' :: r => r
    | r => r
  let s2 : Str :=
    match s1 with
    | c :: r => if jsWs c then r else s1
    | [] => s1
  match takeWhileSplit Char.isDigit s2 with
  | ([], _) => false
  | (_, s3) =>
    let s4 : Str :=
      match s3 with
      | '.' :: r => r
      | r => r
    (takeWhileSplit Char.isDigit s4).2 == ['%']

/-- The display text of a cell as exposed by the document collaborator:
retrieving it may fail (caught by the source's try/catch), yield a plain
string, or yield a rich-text value whose runs are concatenated. -/
inductive TextRes where
  | fail : TextRes
  | plain : Str → TextRes
  | rich : List Str → TextRes
deriving Repr, DecidableEq

/-- An input cell: its coordinate address (`fullAddress.address`), its raw
value when that value is a JS number (carried as the number's string
rendering, used by `cell.value.toString()`), its display text, and its raw
formula text (`""` when the cell has none). -/
structure InCell where
  address : Str
  numValue : Option Str
  textRes : TextRes
  formula : Str
deriving Repr, DecidableEq

structure CellData where
  address : Str
  value : Str
  description : Str
  formula : Str
  rowNum : Nat
  colNum : Nat
deriving Repr, DecidableEq

def joinStrs (l : List Str) : Str := l.foldl (· ++ ·) []

/-- Source lines 98-106: `cell.text` with the try/catch fallback to `""`
and rich-text run concatenation. -/
def extractText : TextRes → Str
  | .fail => []
  | .plain s => s
  | .rich parts => joinStrs parts

/-- `getCellData` (source lines 91-167).  `sheetName` is
`cell.fullAddress.sheetName`. -/
def getCellData (cell : InCell) (sheetName : Str) (sheetNames : List Str)
    (rowNum colNum : Nat) : CellData :=
  let text0 := extractText cell.textRes
  let text1 :=
    match cell.numValue with
    | some s => s
    | none => text0
  let text2 := trimJS text1
  let text3 :=
    if pctLiteralTest text2 then renderJNum (div100 (parseFloatJS text2)) else text2
  let textC := replAll [','] ['.'] text3
  let text4 := if jsIsNumeric textC then textC else text3
  let description := if jsIsNumeric text4 then [] else text4
  let value := if jsIsNumeric text4 then text4 else []
  let f0 : Str := if cell.formula == [] then [] else '=' :: cell.formula
  let f1 := if isPfx (str "=HYPERLINK") f0 then [] else f0
  let f2 := replAll ['$'] [] f1
  let f3 := translate f2
  if 1 < sheetNames.length then
    { address := mkPfxS sheetName ++ cell.address
      value := value, description := description
      formula := normalizeMulti sheetName sheetNames f3
      rowNum := rowNum, colNum := colNum }
  else
    { address := cell.address, value := value, description := description
      formula := rxReplAll bareRefM wrapRender f3
      rowNum := rowNum, colNum := colNum }

/-! ### Grid assembly (`makeGrid`, source lines 54-89) -/

/-- One occupied row as yielded by `sheet.eachRow`: its 1-based row number
and its occupied cells in ascending column order (`row.eachCell` passes
each cell's actual 1-based column number). -/
structure InRow where
  rowNum : Nat
  cells : List (Nat × InCell)
deriving Repr, DecidableEq

structure InSheet where
  name : Str
  rows : List InRow
deriving Repr, DecidableEq

abbrev Workbook := List InSheet

structure Grid where
  cells : List (Str × CellData)
  sheetNames : List Str
deriving Repr, DecidableEq

/-- JS object assignment `m[k] = v`: overwrite in place, else append. -/
def objSet (m : List (Str × CellData)) (k : Str) (v : CellData) :
    List (Str × CellData) :=
  if m.any (fun p => p.1 == k) then m.map (fun p => if p.1 == k then (k, v) else p)
  else m ++ [(k, v)]

/-- JS `delete m[k]`. -/
def objDelete (m : List (Str × CellData)) (k : Str) : List (Str × CellData) :=
  m.filter (fun p => !(p.1 == k))

/-- JS `m[k]` lookup. -/
def objGet (m : List (Str × CellData)) (k : Str) : Option CellData :=
  (m.find? (fun p => p.1 == k)).map (·.2)

structure RowState where
  cells : List (Str × CellData)
  maxColumn : Nat
  prev : Option CellData
deriving Repr, DecidableEq

/-- The `eachCell` body (source lines 66-85), including the label-merge
heuristic. -/
def cellStep (sheetNames : List Str) (sheetName : Str) (startColumn rowNum : Nat)
    (st : RowState) (oc : Nat × InCell) : RowState :=
  let colNum := oc.1 + startColumn
  let maxColumn := max st.maxColumn colNum
  let cd := getCellData oc.2 sheetName sheetNames rowNum colNum
  match st.prev with
  | some p =>
    if (!(cd.value == []) || !(cd.formula == [])) && p.colNum == cd.colNum - 1 &&
        p.formula == [] && !(p.description == []) && p.value == [] then
      let cd2 := { cd with description := p.description }
      { cells := objSet (objDelete st.cells p.address) cd2.address cd2
        maxColumn := maxColumn, prev := some cd2 }
    else
      { cells := objSet st.cells cd.address cd, maxColumn := maxColumn, prev := some cd }
  | none =>
    { cells := objSet st.cells cd.address cd, maxColumn := maxColumn, prev := some cd }

/-- The `eachRow` body: `previousCell` is reset for each row. -/
def rowStep (sheetNames : List Str) (sheetName : Str) (startColumn : Nat)
    (acc : List (Str × CellData) × Nat) (row : InRow) :
    List (Str × CellData) × Nat :=
  let st := row.cells.foldl (cellStep sheetNames sheetName startColumn row.rowNum)
    { cells := acc.1, maxColumn := acc.2, prev := none }
  (st.cells, st.maxColumn)

/-- The `eachSheet` body: `startColumn` is fixed from the running maximum
column before the sheet is walked. -/
def sheetStep (sheetNames : List Str) (acc : List (Str × CellData) × Nat)
    (sheet : InSheet) : List (Str × CellData) × Nat :=
  let startColumn := acc.2 + 1
  sheet.rows.foldl (rowStep sheetNames sheet.name startColumn) acc

/-- `makeGrid` (source lines 54-89). -/
def makeGrid (wb : Workbook) : Grid :=
  let sheetNames := wb.map (·.name)
  { cells := (wb.foldl (sheetStep sheetNames) ([], 0)).1, sheetNames := sheetNames }

/-! ### Graph building (`makeGraph`, source lines 169-202) -/

structure Metric where
  id : Str
  readableId : Str
  name : Str
  row : Nat
  column : Nat
deriving Repr, DecidableEq

structure Guesstimate where
  metric : Str
  expression : Str
  guesstimateType : Str
  description : Str
deriving Repr, DecidableEq

structure Graph where
  metrics : List Metric
  guesstimates : List Guesstimate
deriving Repr, DecidableEq

/-- The name/description policy (source lines 178-183). -/
def nameDesc (c : CellData) : Str × Str :=
  let name := c.description
  if 20 < name.length && !(c.value == []) then (name.take 17 ++ str "...", name)
  else (name, [])

def metricOf (c : CellData) : Metric :=
  { id := c.address, readableId := c.address, name := (nameDesc c).1
    row := c.rowNum - 1, column := c.colNum - 1 }

def guessOf (c : CellData) : Guesstimate :=
  { metric := c.address
    expression := if c.formula == [] then c.value else c.formula
    guesstimateType := if c.formula == [] then str "POINT" else str "FUNCTION"
    description := (nameDesc c).2 }

/-- `makeGraph` (source lines 169-202): one metric/guesstimate pair pushed
per cell, in grid iteration order. -/
def makeGraph (g : Grid) : Graph :=
  { metrics := g.cells.map (fun p => metricOf p.2)
    guesstimates := g.cells.map (fun p => guessOf p.2) }

/-! ### Dependency diagram (`gridToMermaidGraph`, source lines 228-265) -/

def safeChar (c : Char) : Bool :=
  c == ' ' || c.isAlphanum || c == ',' || c == '.' || c == '-' || c == '$' || c == '%'

/-- The character class of grid keys as the code builds them: a key is
either a plain address (`A1`, alphanumeric) or a sanitized sheet prefix
plus address (`Sheet1!A1`), where sanitization (`replace(/\W/g, "")`)
keeps word characters — alphanumerics and `_` — and the prefix adds `!`.
None of the separator characters of the mermaid output (space, `-`, `>`,
`[`) belong to this class. -/
def keyChar (c : Char) : Bool := c.isAlphanum || c == '!' || c == '_'

/-- `nodeText` (source lines 231-243). -/
def nodeText (c : CellData) : Str :=
  let d0 := c.description
  let d := if 40 < d0.length then d0.take 37 ++ str "..." else d0
  if d == [] then []
  else c.address ++ '[' :: d.map (fun ch => if safeChar ch then ch else '_') ++ [']']

def edgeLine (a b : Str) : Str := a ++ str " --> " ++ b

/-- Body of the inner loop over matched addresses (source lines 251-261).
The lookup `grid.cells[address]` always succeeds because `address` is one
of the grid's keys; `[]` is the unreachable default. -/
def mermaidMatchStep (g : Grid) (cell : CellData)
    (st : List Str × List Str) (a : Str) : List Str × List Str :=
  let lines := st.1
  let seen := st.2
  let lines1 :=
    if seen.contains a then lines else lines ++ [(objGet g.cells a).elim [] nodeText]
  let lines2 :=
    if seen.contains cell.address then lines1 else lines1 ++ [nodeText cell]
  (lines2 ++ [edgeLine a cell.address], cell.address :: a :: seen)

/-- Body of the outer loop over cells (source lines 246-262); the regex
`escapeRegExp(address) + "}"` tests exactly for the substring `address}`. -/
def mermaidCellStep (g : Grid) (st : List Str × List Str) (p : Str × CellData) :
    List Str × List Str :=
  let cell := p.2
  if cell.formula == [] then st
  else
    let matched := (g.cells.map (·.1)).filter
      (fun a => containsSub (a ++ ['\x7d']) cell.formula)
    matched.foldl (mermaidMatchStep g cell) st

def gridToMermaidLines (g : Grid) : List Str :=
  (g.cells.foldl (mermaidCellStep g) ([], [])).1

/-- `gridToMermaidGraph` (source lines 228-265). -/
def gridToMermaidGraph (g : Grid) : Str :=
  str "graph LR\n  " ++ joinSep '\n' (gridToMermaidLines g)

/-! ### Derived notions used to state the properties -/

/-- The grid key `getCellData` assigns to an input cell (its `address`
field): sheet-prefixed exactly when the workbook has several sheets. -/
def cellAddr (sheetNames : List Str) (sheetName : Str) (c : InCell) : Str :=
  if 1 < sheetNames.length then mkPfxS sheetName ++ c.address else c.address

def sheetAddrs (sheetNames : List Str) (s : InSheet) : List Str :=
  s.rows.flatMap (fun r => r.cells.map (fun oc => cellAddr sheetNames s.name oc.2))

/-- Every grid key a workbook generates, in generation order. -/
def wbAddrs (wb : Workbook) : List Str :=
  wb.flatMap (sheetAddrs (wb.map (·.name)))

/-- Number of non-overlapping occurrences of `pat` in `s`. -/
def occCount (pat s : Str) : Nat := (scanMatches (litM pat) s).length

/-! ### Concrete inputs used by individual checks -/

/-- One sheet, one cell at row 1 / column 1 holding the number 7. -/
def wbC4 : Workbook :=
  [⟨str "S", [⟨1, [(1, ⟨str "A1", some (str "7"), .plain (str "7"), []⟩)]⟩]⟩]

/-- A grid cell whose description has 21 characters and whose value is
empty. -/
def gC5 : Grid :=
  ⟨[(str "A1", ⟨str "A1", [], str "ABCDEFGHIJKLMNOPQRSTU", [], 1, 2⟩)], [str "S"]⟩

/-- The Revenue label-merge example: A1 holds only the text `Revenue`, B1
holds the number 100. -/
def wbRev : Workbook :=
  [⟨str "S", [⟨1, [(1, ⟨str "A1", none, .plain (str "Revenue"), []⟩),
                   (2, ⟨str "B1", some (str "100"), .plain (str "100"), []⟩)]⟩]⟩]

/-- A grid whose only cell's formula references the cell itself. -/
def gC8self : Grid :=
  ⟨[(str "A1", ⟨str "A1", [], str "x", str "=$\x7bmetric:A1\x7d", 1, 2⟩)], [str "S"]⟩

/-- Two cells of a two-sheet workbook, with sheet-prefixed keys: S!B1's
formula references S!A1 and neither cell references itself. -/
def gC8pair : Grid :=
  ⟨[(str "S!A1", ⟨str "S!A1", str "2", str "In", [], 1, 2⟩),
    (str "S!B1", ⟨str "S!B1", [], str "Out", str "=$\x7bmetric:S!A1\x7d+1", 1, 3⟩)],
   [str "S", str "T"]⟩

/-! ## General lemmas about the string machinery -/

theorem replAllGo_ne_nil {pat repl : Str} (hr : repl ≠ []) :
    ∀ (fuel : Nat) (s : Str), s ≠ [] → replAllGo pat repl fuel s ≠ [] := by
  intro fuel s hs
  match fuel, s with
  | 0, s => exact hs
  | _ + 1, [] => exact absurd rfl hs
  | fuel + 1, c :: cs =>
    unfold replAllGo
    split
    · simp [hr]
    · split
      · simp [hr]
      · simp

theorem isPfx_append_drop : ∀ {pat s : Str}, isPfx pat s = true →
    s = pat ++ s.drop pat.length := by
  intro pat
  induction pat with
  | nil => intro s _; simp
  | cons p ps ih =>
    intro s h
    match s with
    | [] => simp [isPfx] at h
    | c :: cs =>
      simp only [isPfx, Bool.and_eq_true, beq_iff_eq] at h
      simpa [h.1] using congrArg (p :: ·) (ih h.2)

theorem mem_replAllGo {a : Char} {pat repl : Str} (ha : a ∉ pat) :
    ∀ (fuel : Nat) (s : Str), a ∈ s → a ∈ replAllGo pat repl fuel s := by
  intro fuel
  induction fuel with
  | zero => intro s hs; exact hs
  | succ fuel ih =>
    intro s hs
    match s with
    | [] => cases hs
    | c :: cs =>
      unfold replAllGo
      split
      · next hp =>
        rcases List.mem_cons.mp hs with h | h
        · subst h; simp
        · exact List.mem_append_right _ (List.mem_cons_of_mem _ (ih cs h))
      · split
        · next hp hpfx =>
          refine List.mem_append_right _ (ih _ ?_)
          have hsplit : c :: cs = pat ++ (c :: cs).drop pat.length :=
            isPfx_append_drop hpfx
          have : a ∈ pat ++ (c :: cs).drop pat.length := hsplit ▸ hs
          rcases List.mem_append.mp this with h | h
          · exact absurd h ha
          · exact h
        · rcases List.mem_cons.mp hs with h | h
          · subst h; simp
          · exact List.mem_cons_of_mem _ (ih cs h)

theorem mem_replAll {a : Char} {pat repl s : Str} (ha : a ∉ pat) (hs : a ∈ s) :
    a ∈ replAll pat repl s :=
  mem_replAllGo ha _ s hs

theorem rxRepl_ne_nil {m : Matcher} {render : MRes → Str}
    (hr : ∀ r : MRes, r.whole ≠ [] → render r ≠ []) :
    ∀ (fuel : Nat) (prev : Option Char) (s : Str), s ≠ [] →
      rxRepl m render fuel prev s ≠ [] := by
  intro fuel prev s hs
  match fuel, s with
  | 0, s => exact hs
  | _ + 1, [] => exact absurd rfl hs
  | fuel + 1, c :: cs =>
    unfold rxRepl
    match m prev (c :: cs) with
    | some r =>
      simp only
      split
      · simp
      · next hw =>
        have : r.whole ≠ [] := by simpa using hw
        simp [hr r this]
    | none => simp

theorem rxReplAll_ne_nil {m : Matcher} {render : MRes → Str}
    (hr : ∀ r : MRes, r.whole ≠ [] → render r ≠ []) {s : Str} (hs : s ≠ []) :
    rxReplAll m render s ≠ [] :=
  rxRepl_ne_nil hr _ none s hs

theorem rxRepl_of_scanAll_nil {m : Matcher} {render : MRes → Str} :
    ∀ (fuel : Nat) (prev : Option Char) (s : Str),
      scanAll m fuel prev s = [] → rxRepl m render fuel prev s = s := by
  intro fuel
  induction fuel with
  | zero => intro prev s _; rfl
  | succ fuel ih =>
    intro prev s h
    match s with
    | [] => rfl
    | c :: cs =>
      unfold scanAll at h
      unfold rxRepl
      match hm : m prev (c :: cs) with
      | some r =>
        rw [hm] at h
        simp only at h ⊢
        split
        · next hw =>
          rw [if_pos hw] at h
          rw [ih _ _ h]
        · next hw =>
          rw [if_neg hw] at h
          cases h
      | none =>
        rw [hm] at h
        rw [ih _ _ h]

theorem rxReplAll_of_scan_nil {m : Matcher} {render : MRes → Str} {s : Str}
    (h : scanMatches m s = []) : rxReplAll m render s = s :=
  rxRepl_of_scanAll_nil _ _ _ h

theorem toUpperStr_ne_nil {s : Str} (hs : s ≠ []) : toUpperStr s ≠ [] := by
  cases s with
  | nil => exact absurd rfl hs
  | cons c cs => simp [toUpperStr]

theorem natDigits_ne_nil (n : Nat) : natDigits n ≠ [] := by
  unfold natDigits natDigitsGo
  split <;> simp

theorem renderJNum_ne_nil (j : JNum) : renderJNum j ≠ [] := by
  unfold renderJNum
  match j with
  | .nan => simp [str]
  | .val neg m0 k0 =>
    simp only
    split
    · simp [str]
    · split
      · simp [natDigits_ne_nil]
      · split
        · simp
        · split
          · simp [str]
          · match natDigits (stripZeros m0 k0).1 with
            | [] => simp [str]
            | [d] => simp
            | d :: e :: rest => simp

/-! ## Nonemptiness of the translator passes -/

theorem evalPercentage_ne_nil {f : Str} (hf : f ≠ []) : evalPercentage f ≠ [] := by
  unfold evalPercentage
  generalize scanMatches pctM f = ms
  induction ms generalizing f with
  | nil => exact hf
  | cons r rs ih =>
    simp only [List.foldl_cons]
    exact ih (replAllGo_ne_nil (renderJNum_ne_nil _) _ _ hf)

theorem sumprodGo_ne_nil : ∀ (ms : List MRes) (f : Str), f ≠ [] → sumprodGo ms f ≠ [] := by
  intro ms
  induction ms with
  | nil => intro f hf; exact hf
  | cons r rs ih =>
    intro f hf
    unfold sumprodGo
    dsimp only
    split
    · split
      · exact hf
      · exact ih _ (replAllGo_ne_nil (by simp) _ _ hf)
    · exact hf

theorem avgGo_ne_nil : ∀ (ms : List MRes) (f : Str), f ≠ [] → avgGo ms f ≠ [] := by
  intro ms
  induction ms with
  | nil => intro f hf; exact hf
  | cons r rs ih =>
    intro f hf
    unfold avgGo
    exact ih _ (replAllGo_ne_nil (by simp) _ _ hf)

theorem sumRangeGo_ne_nil : ∀ (ms : List MRes) (f : Str), f ≠ [] → sumRangeGo ms f ≠ [] := by
  intro ms
  induction ms with
  | nil => intro f hf; exact hf
  | cons r rs ih =>
    intro f hf
    unfold sumRangeGo
    dsimp only
    split
    · split
      · exact hf
      · exact ih _ (replAllGo_ne_nil (by simp) _ _ hf)
    · exact hf

theorem inlineSum_ne_nil {f : Str} (hf : f ≠ []) : inlineSum f ≠ [] := by
  unfold inlineSum
  dsimp only
  split
  · exact hf
  · have h1 : replAll (str "SUM") (str "_SUM") (toUpperStr f) ≠ [] :=
      replAllGo_ne_nil (by simp [str]) _ _ (toUpperStr_ne_nil hf)
    split
    · exact replAllGo_ne_nil (by simp [str]) _ _ h1
    · split
      · exact h1
      · exact sumRangeGo_ne_nil _ _ h1

theorem lnRender_ne_nil (r : MRes) : lnRender r ≠ [] := by simp [lnRender, str]

theorem pvRender_ne_nil (r : MRes) (hw : r.whole ≠ []) : pvRender r ≠ [] := by
  unfold pvRender
  match r.groups with
  | [g1, g2, g3] => simp [str]
  | [] => exact hw
  | [_] => exact hw
  | [_, _] => exact hw
  | _ :: _ :: _ :: _ :: _ => exact hw

theorem translate_ne_nil {f : Str} (hf : f ≠ []) : translate f ≠ [] := by
  unfold translate replaceLN replacePV inlineSUMPRODUCT inlineAverage
  exact rxReplAll_ne_nil (fun r _ => pvRender_ne_nil r ‹_›)
    (rxReplAll_ne_nil (fun r _ => lnRender_ne_nil r)
      (inlineSum_ne_nil (avgGo_ne_nil _ _ (sumprodGo_ne_nil _ _ (evalPercentage_ne_nil hf)))))

theorem wrapRender_ne_nil (r : MRes) : wrapRender r ≠ [] := by simp [wrapRender, str]

theorem mkPfxS_ne_nil (s : Str) : mkPfxS s ≠ [] := by simp [mkPfxS]

theorem sheetLoopStep_ne_nil {f : Str} (hf : f ≠ []) (sn : Str) :
    sheetLoopStep f sn ≠ [] := by
  unfold sheetLoopStep
  exact rxReplAll_ne_nil (fun r _ => wrapRender_ne_nil r)
    (rxReplAll_ne_nil (fun _ _ => mkPfxS_ne_nil _) hf)

theorem normalizeMulti_ne_nil {cur : Str} {sns : List Str} {f : Str} (hf : f ≠ []) :
    normalizeMulti cur sns f ≠ [] := by
  unfold normalizeMulti
  have h1 : rxReplAll bareRefNoBangM (fun r => mkPfxS cur ++ r.whole) f ≠ [] :=
    rxReplAll_ne_nil (fun r _ => by simp [mkPfxS]) hf
  generalize rxReplAll bareRefNoBangM (fun r => mkPfxS cur ++ r.whole) f = f1 at h1
  induction sns generalizing f1 with
  | nil => exact h1
  | cons sn rest ih => exact ih _ (sheetLoopStep_ne_nil h1 sn)

/-! ## Behaviour of the passes on the empty string -/

theorem sheetLoopStep_nil (sn : Str) : sheetLoopStep [] sn = [] := rfl

theorem normalizeMulti_nil (cur : Str) (sns : List Str) :
    normalizeMulti cur sns [] = [] := by
  unfold normalizeMulti
  have h0 : rxReplAll bareRefNoBangM (fun r => mkPfxS cur ++ r.whole) [] = [] := rfl
  rw [h0]
  induction sns with
  | nil => rfl
  | cons sn rest ih => simpa [sheetLoopStep_nil] using ih

theorem translate_nil : translate [] = [] := rfl

theorem isPfx_eqHyperlink (t : Str) :
    isPfx (str "=HYPERLINK") ('=' :: t) = isPfx (str "HYPERLINK") t := rfl

/-! ## Lemmas on the insertion-ordered object map -/

theorem find_cons_unfold (pfn : Str × CellData → Bool) (x : Str × CellData)
    (l : List (Str × CellData)) :
    List.find? pfn (x :: l) =
      match pfn x with
      | true => some x
      | false => List.find? pfn l := rfl

theorem find_cons_pos {pfn : Str × CellData → Bool} {x : Str × CellData}
    (l : List (Str × CellData)) (h : pfn x = true) :
    List.find? pfn (x :: l) = some x := by
  rw [find_cons_unfold, h]

theorem find_cons_neg {pfn : Str × CellData → Bool} {x : Str × CellData}
    (l : List (Str × CellData)) (h : pfn x = false) :
    List.find? pfn (x :: l) = List.find? pfn l := by
  rw [find_cons_unfold, h]

theorem find_map_set (k : Str) (v : CellData) :
    ∀ m : List (Str × CellData),
      List.find? (fun p => p.1 == k) (m.map (fun p => if p.1 == k then (k, v) else p)) =
        if m.any (fun p => p.1 == k) then some (k, v) else none := by
  intro m
  induction m with
  | nil => rfl
  | cons hd tl ih =>
    rw [List.map_cons, List.any_cons]
    cases hb : hd.1 == k with
    | true =>
      rw [if_pos rfl, Bool.true_or, if_pos rfl]
      exact find_cons_pos _ (beq_self_eq_true k)
    | false =>
      rw [if_neg Bool.false_ne_true, Bool.false_or, find_cons_neg _ hb, ih]

theorem objGet_set_self (m : List (Str × CellData)) (k : Str) (v : CellData) :
    objGet (objSet m k v) k = some v := by
  unfold objGet objSet
  split
  · next h => rw [find_map_set, if_pos h]; rfl
  · next h =>
    have hnone : List.find? (fun p => p.1 == k) m = none := by
      rw [List.find?_eq_none]
      intro x hx hb
      exact absurd (List.any_eq_true.mpr ⟨x, hx, hb⟩) h
    rw [List.find?_append, hnone, Option.none_or, find_cons_pos _ (beq_self_eq_true k)]
    rfl

theorem find_map_set_ne {k a : Str} {v : CellData} (h : a ≠ k) :
    ∀ m : List (Str × CellData),
      List.find? (fun p => p.1 == a) (m.map (fun p => if p.1 == k then (k, v) else p)) =
        List.find? (fun p => p.1 == a) m := by
  intro m
  induction m with
  | nil => rfl
  | cons hd tl ih =>
    rw [List.map_cons]
    cases hbk : hd.1 == k with
    | true =>
      have hk : hd.1 = k := eq_of_beq hbk
      have hba : (hd.1 == a) = false := by
        rw [hk]; exact beq_eq_false_iff_ne.mpr (Ne.symm h)
      have hka : ((k, v).1 == a) = false := beq_eq_false_iff_ne.mpr (Ne.symm h)
      rw [if_pos rfl, find_cons_neg _ hka, find_cons_neg _ hba, ih]
    | false =>
      rw [if_neg Bool.false_ne_true]
      cases hba : hd.1 == a with
      | true => rw [find_cons_pos _ hba, find_cons_pos _ hba]
      | false => rw [find_cons_neg _ hba, find_cons_neg _ hba, ih]

theorem objGet_set_ne {m : List (Str × CellData)} {k a : Str} {v : CellData}
    (h : a ≠ k) : objGet (objSet m k v) a = objGet m a := by
  unfold objGet objSet
  split
  · rw [find_map_set_ne h]
  · rw [List.find?_append]
    cases hf : List.find? (fun p => p.1 == a) m with
    | some p => rfl
    | none =>
      have hka : ((k, v).1 == a) = false := beq_eq_false_iff_ne.mpr (Ne.symm h)
      rw [Option.none_or, find_cons_neg _ hka]
      rfl

theorem objGet_delete_self (m : List (Str × CellData)) (k : Str) :
    objGet (objDelete m k) k = none := by
  unfold objGet objDelete
  have hfind : List.find? (fun p => p.1 == k) (m.filter (fun p => !(p.1 == k))) = none := by
    rw [List.find?_eq_none]
    intro x hx hb
    have := (List.mem_filter.mp hx).2
    rw [hb] at this
    cases this
  rw [hfind]
  rfl

theorem objGet_delete_ne {m : List (Str × CellData)} {k a : Str} (h : a ≠ k) :
    objGet (objDelete m k) a = objGet m a := by
  unfold objGet objDelete
  induction m with
  | nil => rfl
  | cons hd tl ih =>
    cases hbk : hd.1 == k with
    | true =>
      have hba : (hd.1 == a) = false := by
        rw [eq_of_beq hbk]; exact beq_eq_false_iff_ne.mpr (Ne.symm h)
      rw [List.filter_cons_of_neg (by rw [hbk]; decide), find_cons_neg _ hba]
      exact ih
    | false =>
      rw [List.filter_cons_of_pos (by rw [hbk]; rfl)]
      cases hba : hd.1 == a with
      | true => rw [find_cons_pos _ hba, find_cons_pos _ hba]
      | false =>
        rw [find_cons_neg _ hba, find_cons_neg _ hba]
        exact ih

/-! ## `getCellData` field lemmas -/

theorem getCellData_address (cell : InCell) (sn : Str) (sns : List Str) (r c : Nat) :
    (getCellData cell sn sns r c).address = cellAddr sns sn cell := by
  unfold getCellData cellAddr
  dsimp only
  split <;> rfl

theorem getCellData_rowNum (cell : InCell) (sn : Str) (sns : List Str) (r c : Nat) :
    (getCellData cell sn sns r c).rowNum = r := by
  unfold getCellData
  dsimp only
  split <;> rfl

theorem getCellData_colNum (cell : InCell) (sn : Str) (sns : List Str) (r c : Nat) :
    (getCellData cell sn sns r c).colNum = c := by
  unfold getCellData
  dsimp only
  split <;> rfl

/-- The classification fields do not depend on the coordinates passed in. -/
theorem getCellData_indep (cell : InCell) (sn : Str) (sns : List Str)
    (r c r' c' : Nat) :
    (getCellData cell sn sns r c).value = (getCellData cell sn sns r' c').value ∧
    (getCellData cell sn sns r c).description =
      (getCellData cell sn sns r' c').description ∧
    (getCellData cell sn sns r c).formula =
      (getCellData cell sn sns r' c').formula := by
  unfold getCellData
  dsimp only
  split <;> exact ⟨rfl, rfl, rfl⟩

/-! ## Frame lemmas for grid assembly -/

/-- Processing one cell neither touches nor re-creates a grid key `a` that
is not the cell's own address, provided the previous cell's entry at `a`
(if any) is not label-like (a label-like previous entry could be deleted
by the merge).  The resulting `prev` satisfies the same side condition. -/
theorem cellStep_frame {sns : List Str} {sn : Str} {start rn : Nat} {a : Str}
    {st : RowState} {oc : Nat × InCell}
    (haddr : cellAddr sns sn oc.2 ≠ a)
    (hprev : ∀ p : CellData, st.prev = some p → p.address = a →
      p.value ≠ [] ∨ p.formula ≠ []) :
    objGet (cellStep sns sn start rn st oc).cells a = objGet st.cells a ∧
    ∀ p : CellData, (cellStep sns sn start rn st oc).prev = some p →
      p.address = a → p.value ≠ [] ∨ p.formula ≠ [] := by
  have hcd := getCellData_address oc.2 sn sns rn (oc.1 + start)
  have hane : a ≠ (getCellData oc.2 sn sns rn (oc.1 + start)).address := by
    rw [hcd]; exact fun he => haddr he.symm
  unfold cellStep
  dsimp only
  cases hp : st.prev with
  | none =>
    refine ⟨objGet_set_ne hane, ?_⟩
    intro p hpp hpa
    dsimp only at hpp
    cases hpp
    exact absurd hpa (fun he => hane he.symm)
  | some q =>
    dsimp only
    split
    · next hguard =>
      have hparts := hguard
      simp only [Bool.and_eq_true] at hparts
      have hqf : q.formula = [] := by
        have := hparts.1.1.2
        simpa using this
      have hqv : q.value = [] := by
        have := hparts.2
        simpa using this
      have hqa : q.address ≠ a := by
        intro he
        rcases hprev q hp he with h | h
        · exact h hqv
        · exact h hqf
      constructor
      · rw [objGet_set_ne hane, objGet_delete_ne (fun he => hqa he.symm)]
      · intro p hpp hpa
        dsimp only at hpp
        cases hpp
        exact absurd hpa (fun he => hane he.symm)
    · refine ⟨objGet_set_ne hane, ?_⟩
      intro p hpp hpa
      dsimp only at hpp
      cases hpp
      exact absurd hpa (fun he => hane he.symm)

theorem foldl_cellStep_frame {sns : List Str} {sn : Str} {start rn : Nat} {a : Str} :
    ∀ (L : List (Nat × InCell)) (st : RowState),
      (∀ oc ∈ L, cellAddr sns sn oc.2 ≠ a) →
      (∀ p : CellData, st.prev = some p → p.address = a →
        p.value ≠ [] ∨ p.formula ≠ []) →
      objGet (List.foldl (cellStep sns sn start rn) st L).cells a = objGet st.cells a := by
  intro L
  induction L with
  | nil => intro st _ _; rfl
  | cons oc rest ih =>
    intro st hL hprev
    rw [List.foldl_cons]
    have hstep := @cellStep_frame sns sn start rn a st oc
      (hL oc (List.mem_cons_self oc rest)) hprev
    rw [ih _ (fun x hx => hL x (List.mem_cons_of_mem _ hx)) hstep.2]
    exact hstep.1

theorem foldl_rowStep_frame {sns : List Str} {sn : Str} {start : Nat} {a : Str} :
    ∀ (rows : List InRow) (acc : List (Str × CellData) × Nat),
      (∀ row ∈ rows, ∀ oc ∈ row.cells, cellAddr sns sn oc.2 ≠ a) →
      objGet (List.foldl (rowStep sns sn start) acc rows).1 a = objGet acc.1 a := by
  intro rows
  induction rows with
  | nil => intro acc _; rfl
  | cons row rest ih =>
    intro acc hrows
    rw [List.foldl_cons]
    rw [ih _ (fun r hr => hrows r (List.mem_cons_of_mem _ hr))]
    unfold rowStep
    dsimp only
    exact foldl_cellStep_frame _ _
      (hrows row (List.mem_cons_self row rest)) (by intro p hp; cases hp)

theorem foldl_sheetStep_frame {sns : List Str} {a : Str} :
    ∀ (sheets : List InSheet) (acc : List (Str × CellData) × Nat),
      (∀ sh ∈ sheets, ∀ row ∈ sh.rows, ∀ oc ∈ row.cells,
        cellAddr sns sh.name oc.2 ≠ a) →
      objGet (List.foldl (sheetStep sns) acc sheets).1 a = objGet acc.1 a := by
  intro sheets
  induction sheets with
  | nil => intro acc _; rfl
  | cons sh rest ih =>
    intro acc hsh
    rw [List.foldl_cons]
    rw [ih _ (fun s hs => hsh s (List.mem_cons_of_mem _ hs))]
    unfold sheetStep
    dsimp only
    exact foldl_rowStep_frame _ _ (hsh sh (List.mem_cons_self sh rest))

/-! ## The label-merge step, characterized -/

/-- A cell with empty value and empty formula is never merged into: its
step just stores it and becomes the new `previousCell`. -/
theorem cellStep_plain {sns : List Str} {sn : Str} {start rn : Nat}
    {st : RowState} {k : Nat} {c1 : InCell}
    (hd1v : (getCellData c1 sn sns rn (k + start)).value = [])
    (hd1f : (getCellData c1 sn sns rn (k + start)).formula = []) :
    cellStep sns sn start rn st (k, c1) =
      { cells := objSet st.cells (getCellData c1 sn sns rn (k + start)).address
          (getCellData c1 sn sns rn (k + start))
        maxColumn := max st.maxColumn (k + start)
        prev := some (getCellData c1 sn sns rn (k + start)) } := by
  unfold cellStep
  dsimp only
  cases st.prev with
  | none => rfl
  | some q =>
    dsimp only
    split
    · next hguard =>
      exfalso
      rw [hd1v, hd1f] at hguard
      simp at hguard
    · rfl

/-- When the previous cell is label-like and adjacent, and the current cell
carries a value or formula, the step performs the label merge. -/
theorem cellStep_merge {sns : List Str} {sn : Str} {start rn : Nat}
    {st : RowState} {k : Nat} {c2 : InCell} {q : CellData}
    (hp : st.prev = some q)
    (hqcol : q.colNum = k + start)
    (hqf : q.formula = []) (hqd : q.description ≠ []) (hqv : q.value = [])
    (hd2 : (getCellData c2 sn sns rn (k + 1 + start)).value ≠ [] ∨
           (getCellData c2 sn sns rn (k + 1 + start)).formula ≠ []) :
    cellStep sns sn start rn st (k + 1, c2) =
      { cells := objSet (objDelete st.cells q.address)
          (getCellData c2 sn sns rn (k + 1 + start)).address
          { getCellData c2 sn sns rn (k + 1 + start) with description := q.description }
        maxColumn := max st.maxColumn (k + 1 + start)
        prev := some { getCellData c2 sn sns rn (k + 1 + start) with
          description := q.description } } := by
  have hcol := getCellData_colNum c2 sn sns rn (k + 1 + start)
  unfold cellStep
  dsimp only
  rw [hp]
  dsimp only
  rw [if_pos]
  have f1 : (!((getCellData c2 sn sns rn (k + 1 + start)).value == []) ||
      !((getCellData c2 sn sns rn (k + 1 + start)).formula == [])) = true := by
    rcases hd2 with h | h <;> simp [beq_eq_false_iff_ne.mpr h]
  have f2 : (q.colNum == (getCellData c2 sn sns rn (k + 1 + start)).colNum - 1) = true := by
    rw [hqcol, hcol]
    have harith : k + 1 + start - 1 = k + start := by omega
    rw [harith]
    exact beq_self_eq_true _
  have f3 : (q.formula == []) = true := by rw [hqf]; rfl
  have f4 : (!(q.description == [])) = true := by
    rw [beq_eq_false_iff_ne.mpr hqd]; rfl
  have f5 : (q.value == []) = true := by rw [hqv]; rfl
  rw [f1, f2, f3, f4, f5]
  rfl

/-- Processing `cpre ++ [(k, c1), (k+1, c2)] ++ cpost` in one row: when
`c1` classifies as a pure label and `c2` carries data, the final cells map
holds `c2`'s data under `c2`'s address with `c1`'s description copied onto
it, and `c1`'s address is absent. -/
theorem row_process_merge {sns : List Str} {sn : Str} {start rn : Nat}
    (cpre : List (Nat × InCell)) (k : Nat) (c1 c2 : InCell)
    (cpost : List (Nat × InCell)) (st0 : RowState)
    (hd1v : (getCellData c1 sn sns rn (k + start)).value = [])
    (hd1f : (getCellData c1 sn sns rn (k + start)).formula = [])
    (hd1d : (getCellData c1 sn sns rn (k + start)).description ≠ [])
    (hd2 : (getCellData c2 sn sns rn (k + 1 + start)).value ≠ [] ∨
           (getCellData c2 sn sns rn (k + 1 + start)).formula ≠ [])
    (hne : cellAddr sns sn c1 ≠ cellAddr sns sn c2)
    (hpost1 : ∀ oc ∈ cpost, cellAddr sns sn oc.2 ≠ cellAddr sns sn c1)
    (hpost2 : ∀ oc ∈ cpost, cellAddr sns sn oc.2 ≠ cellAddr sns sn c2) :
    objGet (List.foldl (cellStep sns sn start rn) st0
        (cpre ++ (k, c1) :: (k + 1, c2) :: cpost)).cells (cellAddr sns sn c2) =
      some { getCellData c2 sn sns rn (k + 1 + start) with
              description := (getCellData c1 sn sns rn (k + start)).description } ∧
    objGet (List.foldl (cellStep sns sn start rn) st0
        (cpre ++ (k, c1) :: (k + 1, c2) :: cpost)).cells (cellAddr sns sn c1) = none := by
  have ha1 := getCellData_address c1 sn sns rn (k + start)
  have ha2 := getCellData_address c2 sn sns rn (k + 1 + start)
  rw [List.foldl_append, List.foldl_cons, List.foldl_cons]
  rw [cellStep_plain hd1v hd1f]
  rw [cellStep_merge rfl (getCellData_colNum c1 sn sns rn (k + start)) hd1f hd1d hd1v hd2]
  constructor
  · rw [foldl_cellStep_frame cpost _ hpost2 ?pc2]
    case pc2 =>
      intro p hpp hpa
      dsimp only at hpp
      cases hpp
      exact hd2
    dsimp only
    rw [← ha2]
    exact objGet_set_self _ _ _
  · rw [foldl_cellStep_frame cpost _ hpost1 ?pc1]
    case pc1 =>
      intro p hpp hpa
      dsimp only at hpp
      cases hpp
      exfalso
      have h2a : (getCellData c2 sn sns rn (k + 1 + start)).address =
          cellAddr sns sn c1 := hpa
      have hcc : cellAddr sns sn c2 = cellAddr sns sn c1 := by rw [← ha2, h2a]
      exact hne hcc.symm
    dsimp only
    have h12 : cellAddr sns sn c1 ≠
        (getCellData c2 sn sns rn (k + 1 + start)).address := by
      rw [ha2]; exact hne
    rw [objGet_set_ne h12, ← ha1]
    exact objGet_delete_self _ _

/-! ## Claim C6 -/

/-- C6: the label-merge heuristic.  In any workbook whose generated grid
keys are pairwise distinct, whenever a row holds two adjacent occupied
cells where the right one classifies with a non-empty value or formula and
the left one classifies with no formula, a non-empty description and an
empty value, the final grid binds the right cell's address to its data
with the left cell's description copied onto it, and the left cell's
address is absent from the grid.  (The classification hypotheses are
stated at dummy coordinates; classification does not depend on them.) -/
theorem C6_theorem
    (wpre : List InSheet) (sh : InSheet) (wpost : List InSheet)
    (rpre : List InRow) (row : InRow) (rpost : List InRow)
    (cpre : List (Nat × InCell)) (k : Nat) (c1 c2 : InCell)
    (cpost : List (Nat × InCell))
    (hsh : sh.rows = rpre ++ row :: rpost)
    (hrow : row.cells = cpre ++ (k, c1) :: (k + 1, c2) :: cpost)
    (hnodup : (wbAddrs (wpre ++ sh :: wpost)).Nodup)
    (hd1v : (getCellData c1 sh.name ((wpre ++ sh :: wpost).map (·.name)) 0 0).value = [])
    (hd1f : (getCellData c1 sh.name ((wpre ++ sh :: wpost).map (·.name)) 0 0).formula = [])
    (hd1d : (getCellData c1 sh.name ((wpre ++ sh :: wpost).map (·.name)) 0 0).description ≠ [])
    (hd2 : (getCellData c2 sh.name ((wpre ++ sh :: wpost).map (·.name)) 0 0).value ≠ [] ∨
           (getCellData c2 sh.name ((wpre ++ sh :: wpost).map (·.name)) 0 0).formula ≠ []) :
    (∃ cd : CellData,
      objGet (makeGrid (wpre ++ sh :: wpost)).cells
        (cellAddr ((wpre ++ sh :: wpost).map (·.name)) sh.name c2) = some cd ∧
      cd.description =
        (getCellData c1 sh.name ((wpre ++ sh :: wpost).map (·.name)) 0 0).description ∧
      cd.value = (getCellData c2 sh.name ((wpre ++ sh :: wpost).map (·.name)) 0 0).value ∧
      cd.formula = (getCellData c2 sh.name ((wpre ++ sh :: wpost).map (·.name)) 0 0).formula ∧
      cd.address = cellAddr ((wpre ++ sh :: wpost).map (·.name)) sh.name c2) ∧
    objGet (makeGrid (wpre ++ sh :: wpost)).cells
      (cellAddr ((wpre ++ sh :: wpost).map (·.name)) sh.name c1) = none := by
  set sns := (wpre ++ sh :: wpost).map (·.name) with hsns
  set a1 := cellAddr sns sh.name c1 with ha1d
  set a2 := cellAddr sns sh.name c2 with ha2d
  -- the generated key sequence, with our two keys exposed
  have hL : wbAddrs (wpre ++ sh :: wpost) =
      wpre.flatMap (sheetAddrs sns) ++
        (rpre.flatMap (fun r => r.cells.map (fun oc => cellAddr sns sh.name oc.2)) ++
          (cpre.map (fun oc => cellAddr sns sh.name oc.2) ++
            (a1 :: a2 ::
              (cpost.map (fun oc => cellAddr sns sh.name oc.2) ++
                (rpost.flatMap (fun r =>
                    r.cells.map (fun oc => cellAddr sns sh.name oc.2)) ++
                  wpost.flatMap (sheetAddrs sns)))))) := by
    rw [wbAddrs, ← hsns, List.flatMap_append, List.flatMap_cons]
    rw [show sheetAddrs sns sh = sh.rows.flatMap (fun r =>
      r.cells.map (fun oc => cellAddr sns sh.name oc.2)) from rfl]
    rw [hsh, List.flatMap_append, List.flatMap_cons]
    rw [hrow, List.map_append, List.map_cons, List.map_cons]
    simp [List.append_assoc]
  have hsuffix : (a1 :: a2 ::
      (cpost.map (fun oc => cellAddr sns sh.name oc.2) ++
        (rpost.flatMap (fun r => r.cells.map (fun oc => cellAddr sns sh.name oc.2)) ++
          wpost.flatMap (sheetAddrs sns)))) <:+ wbAddrs (wpre ++ sh :: wpost) := by
    rw [hL]
    exact ((List.suffix_append _ _).trans (List.suffix_append _ _)).trans
      (List.suffix_append _ _)
  have hnd := List.Nodup.sublist hsuffix.sublist hnodup
  obtain ⟨h1notin, hnd2⟩ := List.nodup_cons.mp hnd
  obtain ⟨h2notin, _⟩ := List.nodup_cons.mp hnd2
  have hne : a1 ≠ a2 := fun he => h1notin (he ▸ List.mem_cons_self _ _)
  have hpost1 : ∀ oc ∈ cpost, cellAddr sns sh.name oc.2 ≠ a1 := by
    intro oc hoc he
    exact h1notin (List.mem_cons_of_mem _ (List.mem_append_left _
      (he ▸ List.mem_map.mpr ⟨oc, hoc, rfl⟩)))
  have hpost2 : ∀ oc ∈ cpost, cellAddr sns sh.name oc.2 ≠ a2 := by
    intro oc hoc he
    exact h2notin (List.mem_append_left _ (he ▸ List.mem_map.mpr ⟨oc, hoc, rfl⟩))
  have hrp1 : ∀ r ∈ rpost, ∀ oc ∈ r.cells, cellAddr sns sh.name oc.2 ≠ a1 := by
    intro r hr oc hoc he
    exact h1notin (List.mem_cons_of_mem _ (List.mem_append_right _
      (List.mem_append_left _
        (he ▸ List.mem_flatMap.mpr ⟨r, hr, List.mem_map.mpr ⟨oc, hoc, rfl⟩⟩))))
  have hrp2 : ∀ r ∈ rpost, ∀ oc ∈ r.cells, cellAddr sns sh.name oc.2 ≠ a2 := by
    intro r hr oc hoc he
    exact h2notin (List.mem_append_right _ (List.mem_append_left _
      (he ▸ List.mem_flatMap.mpr ⟨r, hr, List.mem_map.mpr ⟨oc, hoc, rfl⟩⟩)))
  have hwp1 : ∀ s' ∈ wpost, ∀ r ∈ s'.rows, ∀ oc ∈ r.cells,
      cellAddr sns s'.name oc.2 ≠ a1 := by
    intro s' hs' r hr oc hoc he
    exact h1notin (List.mem_cons_of_mem _ (List.mem_append_right _
      (List.mem_append_right _
        (he ▸ List.mem_flatMap.mpr ⟨s', hs',
          List.mem_flatMap.mpr ⟨r, hr, List.mem_map.mpr ⟨oc, hoc, rfl⟩⟩⟩))))
  have hwp2 : ∀ s' ∈ wpost, ∀ r ∈ s'.rows, ∀ oc ∈ r.cells,
      cellAddr sns s'.name oc.2 ≠ a2 := by
    intro s' hs' r hr oc hoc he
    exact h2notin (List.mem_append_right _ (List.mem_append_right _
      (he ▸ List.mem_flatMap.mpr ⟨s', hs',
        List.mem_flatMap.mpr ⟨r, hr, List.mem_map.mpr ⟨oc, hoc, rfl⟩⟩⟩)))
  -- reduce the whole build to the processing of our row
  set acc0 := List.foldl (sheetStep sns) ([], 0) wpre with hacc0
  set acc1 := List.foldl (rowStep sns sh.name (acc0.2 + 1)) acc0 rpre with hacc1
  have hmain : ∀ a : Str,
      (∀ r ∈ rpost, ∀ oc ∈ r.cells, cellAddr sns sh.name oc.2 ≠ a) →
      (∀ s' ∈ wpost, ∀ r ∈ s'.rows, ∀ oc ∈ r.cells, cellAddr sns s'.name oc.2 ≠ a) →
      objGet (makeGrid (wpre ++ sh :: wpost)).cells a =
        objGet (List.foldl (cellStep sns sh.name (acc0.2 + 1) row.rowNum)
          { cells := acc1.1, maxColumn := acc1.2, prev := none } row.cells).cells a := by
    intro a hrp hwp
    show objGet ((wpre ++ sh :: wpost).foldl (sheetStep sns) ([], 0)).1 a = _
    rw [List.foldl_append, List.foldl_cons, ← hacc0]
    rw [foldl_sheetStep_frame wpost _ hwp]
    show objGet ((sh.rows).foldl (rowStep sns sh.name (acc0.2 + 1)) acc0).1 a = _
    rw [hsh, List.foldl_append, List.foldl_cons, ← hacc1]
    rw [foldl_rowStep_frame rpost _ hrp]
    rfl
  have hid1 := getCellData_indep c1 sh.name sns row.rowNum (k + (acc0.2 + 1)) 0 0
  have hid2 := getCellData_indep c2 sh.name sns row.rowNum (k + 1 + (acc0.2 + 1)) 0 0
  have hlook := row_process_merge cpre k c1 c2 cpost
    { cells := acc1.1, maxColumn := acc1.2, prev := none }
    (hid1.1.trans hd1v) (hid1.2.2.trans hd1f)
    (by rw [hid1.2.1]; exact hd1d)
    (by rcases hd2 with h | h
        · exact Or.inl (by rw [hid2.1]; exact h)
        · exact Or.inr (by rw [hid2.2.2]; exact h))
    hne hpost1 hpost2
  rw [← hrow] at hlook
  constructor
  · refine ⟨{ getCellData c2 sh.name sns row.rowNum (k + 1 + (acc0.2 + 1)) with
        description := (getCellData c1 sh.name sns row.rowNum (k + (acc0.2 + 1))).description },
      ?_, ?_, ?_, ?_, ?_⟩
    · rw [hmain a2 hrp2 hwp2]
      exact hlook.1
    · exact hid1.2.1
    · exact hid2.1
    · exact hid2.2.2
    · exact getCellData_address c2 sh.name sns row.rowNum (k + 1 + (acc0.2 + 1))
  · rw [hmain a1 hrp1 hwp1]
    exact hlook.2

/-- C6 witness: the Revenue example.  `A1` holds only the text `Revenue`,
`B1` the number 100; the resulting grid binds `B1` to value `100` with
description `Revenue`, and `A1` is gone. -/
theorem C6_witness :
    (∃ cd : CellData,
      objGet (makeGrid wbRev).cells (str "B1") = some cd ∧
      cd.description = str "Revenue" ∧
      cd.value = str "100" ∧
      cd.formula = [] ∧
      cd.address = str "B1") ∧
    objGet (makeGrid wbRev).cells (str "A1") = none := by
  have h := C6_theorem [] ⟨str "S", [⟨1, [(1, ⟨str "A1", none, .plain (str "Revenue"), []⟩),
      (2, ⟨str "B1", some (str "100"), .plain (str "100"), []⟩)]⟩]⟩ [] [] _ []
    [] 1 ⟨str "A1", none, .plain (str "Revenue"), []⟩
    ⟨str "B1", some (str "100"), .plain (str "100"), []⟩ []
    rfl rfl (by decide) (by decide) (by decide) (by decide) (Or.inl (by decide))
  exact h

/-! ## Claim C1 -/

/-- C1: the claim that an unresolvable `SUM` formula is returned character
for character unchanged is false: `inlineSum` has already uppercased the
formula and replaced every `SUM` by `_SUM` before it gives up, as the
range `A1:B2` (spanning two column letters) shows. -/
theorem C1_counterexample :
    inlineSum (str "=SUM(A1:B2)") = str "=_SUM(A1:B2)" ∧
    str "=_SUM(A1:B2)" ≠ str "=SUM(A1:B2)" := by decide

/-- C1 (amended): when the SUM pass cannot resolve the calls it sees, it
does not return the input unchanged.  On the shape-mismatch paths (the
comma-list and single-range patterns each fail to account for every SUM
occurrence) the result is exactly the uppercased input with every `SUM`
replaced by `_SUM`; on the different-column-letters path, range-SUM calls
expanded before the offending one are additionally left inlined. -/
theorem C1_theorem :
    (∀ f : Str,
      containsSub (str "SUM") (toUpperStr f) = true →
      (scanMatches commaSumM (replAll (str "SUM") (str "_SUM") (toUpperStr f))).length ≠
        (scanMatches (litM (str "SUM"))
          (replAll (str "SUM") (str "_SUM") (toUpperStr f))).length →
      (scanMatches rangeSumM (replAll (str "SUM") (str "_SUM") (toUpperStr f))).length ≠
        (scanMatches (litM (str "SUM"))
          (replAll (str "SUM") (str "_SUM") (toUpperStr f))).length →
      inlineSum f = replAll (str "SUM") (str "_SUM") (toUpperStr f)) ∧
    inlineSum (str "=SUM(A1:A2)+SUM(C1:D2)") = str "=(A1+A2)+_SUM(C1:D2)" := by
  constructor
  · intro f h1 h2 h3
    unfold inlineSum
    dsimp only
    rw [h1]
    have hb2 : ((scanMatches commaSumM (replAll (str "SUM") (str "_SUM") (toUpperStr f))).length ==
        (scanMatches (litM (str "SUM"))
          (replAll (str "SUM") (str "_SUM") (toUpperStr f))).length) = false := by
      simpa using h2
    rw [hb2]
    simp only [Bool.not_true, Bool.false_eq_true, if_false, if_pos h3]
  · decide

/-- C1 witness: a mixed-style formula goes through the shape-mismatch path
and comes back marked, not unchanged. -/
theorem C1_witness :
    inlineSum (str "=SUM(A1:A2,B3)") =
      replAll (str "SUM") (str "_SUM") (toUpperStr (str "=SUM(A1:A2,B3)")) :=
  C1_theorem.1 (str "=SUM(A1:A2,B3)") (by decide) (by decide) (by decide)

/-! ## Claim C2 (counterexample; the amended theorem follows later) -/

/-- C2: with sheets `MySheet1` and `Sheet1` (one sanitized name a suffix of
the other), the bare reference `A1` on `MySheet1` is wrapped once for
`MySheet1` and then re-wrapped by `Sheet1`'s later pass, yielding two
nested `${metric:...}` placeholders for a single reference. -/
theorem C2_counterexample :
    (getCellData ⟨str "A1", none, .plain [], str "A1"⟩ (str "MySheet1")
        [str "MySheet1", str "Sheet1"] 1 2).formula
      = str "=$\x7bmetric:My$\x7bmetric:Sheet1!A1\x7d\x7d" ∧
    occCount (str "$\x7bmetric:")
      ((getCellData ⟨str "A1", none, .plain [], str "A1"⟩ (str "MySheet1")
        [str "MySheet1", str "Sheet1"] 1 2).formula) = 2 ∧
    occCount (str "A1")
      ((getCellData ⟨str "A1", none, .plain [], str "A1"⟩ (str "MySheet1")
        [str "MySheet1", str "Sheet1"] 1 2).formula) = 1 := by decide

/-! ## Claim C3 -/

/-- C3: idempotence fails.  `"5%%"` contains no recognized function name,
yet the percentage pass rewrites it to `"0.05%"`, which a second run
rewrites again to `"0.0005"`. -/
theorem C3_counterexample :
    containsSub (str "SUM") (toUpperStr (str "5%%")) = false ∧
    scanMatches sumprodM (str "5%%") = [] ∧
    scanMatches avgM (str "5%%") = [] ∧
    scanMatches lnM (str "5%%") = [] ∧
    scanMatches pvM (str "5%%") = [] ∧
    translate (str "5%%") = str "0.05%" ∧
    translate (translate (str "5%%")) = str "0.0005" ∧
    translate (translate (str "5%%")) ≠ translate (str "5%%") := by decide

/-- C3 (amended): for a formula with no recognized function name *and no
percentage-literal match*, `translate` is the identity, hence a fixed
point of re-running the pipeline. -/
theorem C3_theorem (f : Str)
    (hpct : scanMatches pctM f = [])
    (hsum : containsSub (str "SUM") (toUpperStr f) = false)
    (hsp : scanMatches sumprodM f = [])
    (havg : scanMatches avgM f = [])
    (hln : scanMatches lnM f = [])
    (hpv : scanMatches pvM f = []) :
    translate f = f ∧ translate (translate f) = translate f := by
  have h1 : evalPercentage f = f := by unfold evalPercentage; rw [hpct]; rfl
  have h2 : inlineSUMPRODUCT f = f := by unfold inlineSUMPRODUCT; rw [hsp]; rfl
  have h3 : inlineAverage f = f := by unfold inlineAverage; rw [havg]; rfl
  have h4 : inlineSum f = f := by unfold inlineSum; rw [hsum]; rfl
  have h5 : replaceLN f = f := rxReplAll_of_scan_nil hln
  have h6 : replacePV f = f := rxReplAll_of_scan_nil hpv
  have ht : translate f = f := by unfold translate; rw [h1, h2, h3, h4, h5, h6]
  exact ⟨ht, by rw [ht, ht]⟩

theorem C3_witness :
    translate (str "=A1+B2*3") = str "=A1+B2*3" ∧
    translate (translate (str "=A1+B2*3")) = translate (str "=A1+B2*3") :=
  C3_theorem (str "=A1+B2*3") (by decide) (by decide) (by decide) (by decide)
    (by decide) (by decide)

/-! ## Claim C4 -/

/-- C4: the code is off by one.  For the very first sheet,
`startColumn = maxColumn + 1 = 1`, so the first occupied column receives
`colNum = 2`, not 1 — while `rowNum` is 1 as the claim states.  The
downstream `makeGraph` subtracts 1 from both, producing a 0-based row but
a 1-based column, which shows the offset is a slip. -/
theorem C4_theorem :
    (makeGrid wbC4).cells = [(str "A1", ⟨str "A1", str "7", [], [], 1, 2⟩)] ∧
    (makeGraph (makeGrid wbC4)).metrics = [⟨str "A1", str "A1", [], 0, 1⟩] := by decide

/-! ## Claim C5 -/

/-- C5: a 21-character description on a cell with an *empty* value is kept
verbatim as the metric name, exceeding the claimed 20-character cap. -/
theorem C5_counterexample :
    (makeGraph gC5).metrics.map (·.name) = [str "ABCDEFGHIJKLMNOPQRSTU"] ∧
    20 < (str "ABCDEFGHIJKLMNOPQRSTU").length := by decide

/-- C5 (amended): the truncation dichotomy holds exactly as claimed, but
the cap only applies on the truncation branch — when the description
exceeds 20 characters and the value is empty, the name is the description
verbatim and may exceed 20 characters. -/
theorem nameDesc_pos {c : CellData} (h1 : 20 < c.description.length)
    (h2 : c.value ≠ []) :
    nameDesc c = (c.description.take 17 ++ str "...", c.description) := by
  have hb : (decide (20 < c.description.length) && !(c.value == [])) = true := by
    simp [h1, h2]
  unfold nameDesc
  dsimp only
  rw [hb]
  simp

theorem nameDesc_neg {c : CellData} (h : ¬(20 < c.description.length ∧ c.value ≠ [])) :
    nameDesc c = (c.description, []) := by
  have hb : (decide (20 < c.description.length) && !(c.value == [])) = false := by
    rcases Decidable.not_and_iff_or_not.mp h with h1 | h1
    · simp [h1]
    · simp [Decidable.not_not.mp h1]
  unfold nameDesc
  dsimp only
  rw [hb]
  simp

theorem C5_theorem (c : CellData) :
    (20 < c.description.length ∧ c.value ≠ [] →
      (metricOf c).name = c.description.take 17 ++ str "..." ∧
      (metricOf c).name.length = 20 ∧
      (guessOf c).description = c.description) ∧
    (¬(20 < c.description.length ∧ c.value ≠ []) →
      (metricOf c).name = c.description ∧ (guessOf c).description = []) := by
  constructor
  · rintro ⟨h1, h2⟩
    have hnd := nameDesc_pos h1 h2
    refine ⟨by simp [metricOf, hnd], ?_, by simp [guessOf, hnd]⟩
    have h17 : (c.description.take 17).length = 17 := by
      rw [List.length_take]; omega
    simp [metricOf, hnd, h17, str]
  · intro h
    have hnd := nameDesc_neg h
    exact ⟨by simp [metricOf, hnd], by simp [guessOf, hnd]⟩

theorem C5_witness :
    20 < (str "ABCDEFGHIJKLMNOPQRSTU").length ∧ str "5" ≠ [] ∧
    (metricOf ⟨str "A1", str "5", str "ABCDEFGHIJKLMNOPQRSTU", [], 1, 2⟩).name =
      (str "ABCDEFGHIJKLMNOPQRSTU").take 17 ++ str "..." :=
  ⟨by decide, by decide,
    ((C5_theorem ⟨str "A1", str "5", str "ABCDEFGHIJKLMNOPQRSTU", [], 1, 2⟩).1
      ⟨by decide, by decide⟩).1⟩

/-! ## Claim C7 -/

/-- C7: a `HYPERLINK(...)` call that is not at the start of the formula is
*not* discarded: the cell keeps a non-empty translated formula. -/
theorem C7_counterexample :
    containsSub (str "HYPERLINK(") (str "1+HYPERLINK(Z)") = true ∧
    (getCellData ⟨str "C1", none, .plain [], str "1+HYPERLINK(Z)"⟩ (str "S")
        [str "S"] 1 2).formula = str "=1+HYPERLINK(Z)" ∧
    str "=1+HYPERLINK(Z)" ≠ [] := by decide

/-- C7 (amended): only a formula that *starts* with `HYPERLINK` is
discarded; for every such cell the resulting `CellData.formula` is empty. -/
theorem C7_theorem (cell : InCell) (sheetName : Str) (sheetNames : List Str)
    (rowNum colNum : Nat) (h : isPfx (str "HYPERLINK") cell.formula = true) :
    (getCellData cell sheetName sheetNames rowNum colNum).formula = [] := by
  have hne : (cell.formula == []) = false := by
    cases hf : cell.formula with
    | nil => rw [hf] at h; exact absurd h (by decide)
    | cons a l => rfl
  unfold getCellData
  dsimp only
  rw [hne]
  simp only [Bool.false_eq_true, if_false, isPfx_eqHyperlink, h, if_true]
  have h2 : replAll ['$'] [] [] = [] := rfl
  rw [h2, translate_nil]
  split
  · simp [normalizeMulti_nil]
  · rfl

theorem C7_witness :
    (getCellData ⟨str "C1", none, .plain [], str "HYPERLINK(Z)"⟩ (str "S")
        [str "S"] 1 2).formula = [] :=
  C7_theorem _ _ _ _ _ (by decide)

/-! ## Claim C8 (counterexample; the amended theorem follows later) -/

/-- C8: a cell whose formula references the cell itself defeats the `seen`
deduplication — both membership checks precede both insertions — so the
node declaration `A1[x]` is emitted twice for the single address `A1`. -/
theorem C8_counterexample :
    gridToMermaidLines gC8self = [str "A1[x]", str "A1[x]", str "A1 --> A1"] ∧
    (gridToMermaidLines gC8self).count (str "A1[x]") = 2 := by decide

/-! ## Claim C10 -/

/-- C10: a cell whose formula is a `HYPERLINK` call but whose cached
display value is the number 5 yields `value = "5"` with an *empty*
formula, so graph building produces a `POINT` whose expression is the
cached value — contradicting the claim that every formula cell with a
numeric cached value becomes a `FUNCTION`. -/
theorem C10_counterexample :
    (getCellData ⟨str "C1", none, .plain (str "5"), str "HYPERLINK(B)"⟩ (str "S")
        [str "S"] 1 2) = ⟨str "C1", str "5", [], [], 1, 2⟩ ∧
    (guessOf ⟨str "C1", str "5", [], [], 1, 2⟩).guesstimateType = str "POINT" ∧
    (guessOf ⟨str "C1", str "5", [], [], 1, 2⟩).expression = str "5" := by decide

theorem getCellData_formula_ne_nil {cell : InCell} {sheetName : Str}
    {sheetNames : List Str} {rowNum colNum : Nat} (hf : cell.formula ≠ [])
    (hh : isPfx (str "HYPERLINK") cell.formula = false) :
    (getCellData cell sheetName sheetNames rowNum colNum).formula ≠ [] := by
  have hne : (cell.formula == []) = false := by
    cases hfc : cell.formula with
    | nil => exact absurd hfc hf
    | cons a l => rfl
  unfold getCellData
  dsimp only
  rw [hne]
  simp only [Bool.false_eq_true, if_false, isPfx_eqHyperlink, hh]
  have hmem : '=' ∈ replAll ['$'] [] ('=' :: cell.formula) :=
    mem_replAll (by decide) (List.mem_cons_self _ _)
  have h2 : translate (replAll ['$'] [] ('=' :: cell.formula)) ≠ [] :=
    translate_ne_nil (List.ne_nil_of_mem hmem)
  split
  · exact normalizeMulti_ne_nil h2
  · exact rxReplAll_ne_nil (fun r _ => wrapRender_ne_nil r) h2

/-- C10 (amended): for a cell carrying a formula that is *not* a
`HYPERLINK` call, whose classified display text is a non-empty number, the
resulting `CellData` has both `value` and `formula` non-empty, and graph
building emits a `FUNCTION` whose expression is the translated formula —
the cached numeric value is never used as the expression. -/
theorem C10_theorem (cell : InCell) (sheetName : Str) (sheetNames : List Str)
    (rowNum colNum : Nat) (hf : cell.formula ≠ [])
    (hh : isPfx (str "HYPERLINK") cell.formula = false)
    (hv : (getCellData cell sheetName sheetNames rowNum colNum).value ≠ []) :
    (getCellData cell sheetName sheetNames rowNum colNum).value ≠ [] ∧
    (getCellData cell sheetName sheetNames rowNum colNum).formula ≠ [] ∧
    (guessOf (getCellData cell sheetName sheetNames rowNum colNum)).guesstimateType =
      str "FUNCTION" ∧
    (guessOf (getCellData cell sheetName sheetNames rowNum colNum)).expression =
      (getCellData cell sheetName sheetNames rowNum colNum).formula := by
  have hfor := @getCellData_formula_ne_nil cell sheetName sheetNames rowNum colNum hf hh
  have hb : ((getCellData cell sheetName sheetNames rowNum colNum).formula == []) = false := by
    cases hfc : (getCellData cell sheetName sheetNames rowNum colNum).formula with
    | nil => exact absurd hfc hfor
    | cons a l => rfl
  refine ⟨hv, hfor, ?_, ?_⟩ <;>
    simp only [guessOf, hb, Bool.false_eq_true, if_false]

/-! ## Claim C8: helper lemmas -/

/-- Splitting at the first occurrence of a separator outside the key
character class is unambiguous when the parts before it are key
characters. -/
theorem append_sep_inj {c0 : Char} (hc0 : keyChar c0 = false) :
    ∀ {x1 x2 t1 t2 : Str},
      (∀ ch ∈ x1, keyChar ch = true) → (∀ ch ∈ x2, keyChar ch = true) →
      x1 ++ c0 :: t1 = x2 ++ c0 :: t2 → x1 = x2 ∧ t1 = t2 := by
  intro x1
  induction x1 with
  | nil =>
    intro x2 t1 t2 _ hx2 he
    cases x2 with
    | nil => simpa using he
    | cons y ys =>
      exfalso
      simp only [List.nil_append, List.cons_append, List.cons.injEq] at he
      have hy := hx2 y (List.mem_cons_self _ _)
      rw [← he.1, hc0] at hy
      cases hy
  | cons x xs ih =>
    intro x2 t1 t2 hx1 hx2 he
    cases x2 with
    | nil =>
      exfalso
      simp only [List.nil_append, List.cons_append, List.cons.injEq] at he
      have hx := hx1 x (List.mem_cons_self _ _)
      rw [he.1, hc0] at hx
      cases hx
    | cons y ys =>
      simp only [List.cons_append, List.cons.injEq] at he
      obtain ⟨hxy, he2⟩ := he
      obtain ⟨hx, ht⟩ := ih (fun ch hch => hx1 ch (List.mem_cons_of_mem _ hch))
        (fun ch hch => hx2 ch (List.mem_cons_of_mem _ hch)) he2
      exact ⟨by rw [hxy, hx], ht⟩

theorem edgeLine_inj {a1 b1 a2 b2 : Str}
    (ha1 : ∀ ch ∈ a1, keyChar ch = true) (ha2 : ∀ ch ∈ a2, keyChar ch = true)
    (he : edgeLine a1 b1 = edgeLine a2 b2) : a1 = a2 ∧ b1 = b2 := by
  unfold edgeLine at he
  have harrow : str " --> " = ' ' :: '-' :: '-' :: '>' :: ' ' :: [] := rfl
  rw [harrow, List.append_assoc, List.append_assoc] at he
  simp only [List.cons_append, List.nil_append] at he
  have he2 := @append_sep_inj ' ' (by decide) a1 a2 _ _ ha1 ha2 he
  refine ⟨he2.1, ?_⟩
  simpa using he2.2

theorem gt_mem_edgeLine (a b : Str) : '>' ∈ edgeLine a b := by
  unfold edgeLine
  exact List.mem_append_left _ (List.mem_append_right _ (by decide))

/-- The two shapes `nodeText` can take. -/
theorem nodeText_cases (c : CellData) :
    nodeText c = [] ∨ ∃ d : Str, nodeText c =
      c.address ++ '[' :: d.map (fun ch => if safeChar ch then ch else '_') ++ [']'] := by
  unfold nodeText
  dsimp only
  generalize (if 40 < c.description.length then c.description.take 37 ++ str "..."
    else c.description) = d
  split
  · exact Or.inl rfl
  · exact Or.inr ⟨d, rfl⟩

theorem gt_not_mem_nodeText {c : CellData}
    (h : ∀ ch ∈ c.address, keyChar ch = true) : '>' ∉ nodeText c := by
  rcases nodeText_cases c with hc | ⟨d, hc⟩
  · rw [hc]; simp
  · rw [hc]
    intro hmem
    rcases List.mem_append.mp hmem with hmem | hmem
    · rcases List.mem_append.mp hmem with hmem | hmem
      · have := h _ hmem
        cases this
      · rcases List.mem_cons.mp hmem with hmem | hmem
        · cases hmem
        · rcases List.mem_map.mp hmem with ⟨ch, _, hval⟩
          by_cases hs : safeChar ch = true
          · rw [if_pos hs] at hval
            rw [hval] at hs
            cases hs
          · rw [if_neg hs] at hval
            cases hval
    · rcases List.mem_cons.mp hmem with hmem | hmem
      · cases hmem
      · cases hmem

theorem edgeLine_ne_nodeText {a b : Str} {c : CellData}
    (h : ∀ ch ∈ c.address, keyChar ch = true) : edgeLine a b ≠ nodeText c := by
  intro he
  exact gt_not_mem_nodeText h (he ▸ gt_mem_edgeLine a b)

theorem nodeText_addr_inj {c1 c2 : CellData}
    (h1 : ∀ ch ∈ c1.address, keyChar ch = true)
    (h2 : ∀ ch ∈ c2.address, keyChar ch = true)
    (hne : nodeText c1 ≠ [])
    (he : nodeText c1 = nodeText c2) : c1.address = c2.address := by
  rcases nodeText_cases c1 with h | ⟨d1, ht1⟩
  · exact absurd h hne
  rcases nodeText_cases c2 with h | ⟨d2, ht2⟩
  · exact absurd (he.trans h) hne
  rw [ht1, ht2] at he
  rw [List.append_assoc, List.append_assoc, List.cons_append, List.cons_append] at he
  exact (@append_sep_inj '[' (by decide) _ _ _ _ h1 h2 he).1

theorem objGet_some_mem {m : List (Str × CellData)} {k : Str} {v : CellData}
    (h : objGet m k = some v) : (k, v) ∈ m := by
  unfold objGet at h
  cases hf : List.find? (fun p => p.1 == k) m with
  | none => rw [hf] at h; cases h
  | some p =>
    rw [hf] at h
    have hp := List.mem_of_find?_eq_some hf
    have hpk := List.find?_some hf
    have hv : p.2 = v := by simpa using h
    have hk : p.1 = k := eq_of_beq hpk
    rw [← hv, ← hk]
    exact hp

theorem objGet_of_mem_nodup {m : List (Str × CellData)} {p : Str × CellData}
    (hnd : (m.map (·.1)).Nodup) (hp : p ∈ m) : objGet m p.1 = some p.2 := by
  induction m with
  | nil => cases hp
  | cons hd tl ih =>
    rw [List.map_cons] at hnd
    have hnd2 := List.nodup_cons.mp hnd
    rcases List.mem_cons.mp hp with h | h
    · subst h
      unfold objGet
      rw [find_cons_pos tl (show (fun q : Str × CellData => q.1 == p.1) p = true from
        beq_self_eq_true p.1)]
      rfl
    · have hne : hd.1 ≠ p.1 := by
        intro he
        exact hnd2.1 (he ▸ List.mem_map.mpr ⟨p, h, rfl⟩)
      unfold objGet
      rw [find_cons_neg tl (show (fun q : Str × CellData => q.1 == p.1) hd = false from
        beq_eq_false_iff_ne.mpr hne)]
      exact ih hnd2.2 h

theorem entry_eq_of_key_eq {m : List (Str × CellData)} (hnd : (m.map (·.1)).Nodup)
    {r s : Str × CellData} (hr : r ∈ m) (hs : s ∈ m) (h : r.1 = s.1) : r = s := by
  induction m with
  | nil => cases hr
  | cons hd tl ih =>
    rw [List.map_cons] at hnd
    have hnd2 := List.nodup_cons.mp hnd
    rcases List.mem_cons.mp hr with h1 | h1 <;> rcases List.mem_cons.mp hs with h2 | h2
    · rw [h1, h2]
    · exfalso
      subst h1
      exact hnd2.1 (h ▸ List.mem_map.mpr ⟨s, h2, rfl⟩)
    · exfalso
      subst h2
      exact hnd2.1 (h ▸ List.mem_map.mpr ⟨r, h1, rfl⟩)
    · exact ih hnd2.2 h1 h2

theorem count_singleton_str (a x : Str) :
    List.count a [x] = if x == a then 1 else 0 := by
  rw [List.count_cons, List.count_nil]
  omega

theorem count_filter_str (a : Str) (f : Str → Bool) :
    ∀ l : List Str, (l.filter f).count a = if f a then l.count a else 0 := by
  intro l
  induction l with
  | nil => cases hf : f a <;> simp [hf]
  | cons x xs ih =>
    cases hf : f x
    · rw [List.filter_cons_of_neg (by rw [hf]; exact Bool.false_ne_true), ih]
      cases hfa : f a
      · simp
      · have hxa : (x == a) = false := by
          cases hbeq : x == a
          · rfl
          · have hxe : x = a := beq_iff_eq.mp hbeq
            rw [hxe, hfa] at hf
            exact absurd hf.symm Bool.false_ne_true
        rw [if_pos rfl, if_pos rfl, List.count_cons, hxa, if_neg Bool.false_ne_true]
        omega
    · rw [List.filter_cons_of_pos (by rw [hf]), List.count_cons, ih, List.count_cons]
      cases hfa : f a
      · have hxa : (x == a) = false := by
          cases hbeq : x == a
          · rfl
          · have hxe : x = a := beq_iff_eq.mp hbeq
            rw [hxe, hfa] at hf
            exact absurd hf Bool.false_ne_true
        rw [if_neg Bool.false_ne_true, if_neg Bool.false_ne_true, hxa,
          if_neg Bool.false_ne_true]
      · rw [if_pos rfl, if_pos rfl]

theorem count_eq_one_of_nodup_mem {a : Str} {l : List Str} (hnd : l.Nodup)
    (ha : a ∈ l) : l.count a = 1 := by
  induction l with
  | nil => cases ha
  | cons x xs ih =>
    have hnd2 := List.nodup_cons.mp hnd
    rcases List.mem_cons.mp ha with h | h
    · subst h
      have h0 : xs.count a = 0 := by
        rw [List.count_eq_zero]
        exact hnd2.1
      rw [List.count_cons, beq_self_eq_true, h0, if_pos rfl]
    · have hne : x ≠ a := fun he => hnd2.1 (he ▸ h)
      rw [List.count_cons, beq_eq_false_iff_ne.mpr hne, ih hnd2.2 h,
        if_neg Bool.false_ne_true]

theorem edgeLine_ne_nil (a b : Str) : edgeLine a b ≠ [] :=
  List.ne_nil_of_mem (gt_mem_edgeLine a b)

/-- One inner iteration of the mermaid loop, counting copies of one edge
line: node pushes never look like an edge line, and the pushed edge line
is the tracked one exactly when the endpoints coincide. -/
theorem mermaid_inner_edge (g : Grid) (pa qa : Str)
    (hpa1 : ∀ ch ∈ pa, keyChar ch = true)
    (cell : CellData)
    (hcelladdr : ∀ ch ∈ cell.address, keyChar ch = true)
    (halnum : ∀ p ∈ g.cells, ∀ ch ∈ p.1, keyChar ch = true)
    (hkeys : ∀ p ∈ g.cells, p.1 = p.2.address) :
    ∀ (bs : List Str) (lines seen : List Str),
      (∀ b ∈ bs, b ∈ g.cells.map (·.1)) →
      (List.foldl (mermaidMatchStep g cell) (lines, seen) bs).1.count
          (edgeLine pa qa) =
        lines.count (edgeLine pa qa) +
          (if cell.address = qa then bs.count pa else 0) := by
  intro bs
  induction bs with
  | nil =>
    intro lines seen _
    simp
  | cons b rest ih =>
    intro lines seen hbs
    rw [List.foldl_cons]
    have hbk := hbs b (List.mem_cons_self b rest)
    have hbalnum : ∀ ch ∈ b, keyChar ch = true := by
      rcases List.mem_map.mp hbk with ⟨e, he, hval⟩
      intro ch hch
      exact halnum e he ch (hval ▸ hch)
    have hnode1 : (objGet g.cells b).elim [] nodeText ≠ edgeLine pa qa := by
      cases ho : objGet g.cells b with
      | none => exact (edgeLine_ne_nil pa qa).symm
      | some cb =>
        have hmem := objGet_some_mem ho
        have hcb : ∀ ch ∈ cb.address, keyChar ch = true := by
          have hk := hkeys (b, cb) hmem
          intro ch hch
          exact halnum (b, cb) hmem ch (by rw [hk]; exact hch)
        exact fun he => (edgeLine_ne_nodeText hcb) he.symm
    have hnode2 : nodeText cell ≠ edgeLine pa qa :=
      fun he => (edgeLine_ne_nodeText hcelladdr) he.symm
    have hstep : mermaidMatchStep g cell (lines, seen) b =
        ((if seen.contains cell.address then
            (if seen.contains b then lines
              else lines ++ [(objGet g.cells b).elim [] nodeText])
          else (if seen.contains b then lines
              else lines ++ [(objGet g.cells b).elim [] nodeText]) ++
            [nodeText cell]) ++ [edgeLine b cell.address],
         cell.address :: b :: seen) := rfl
    rw [hstep, ih _ _ (fun x hx => hbs x (List.mem_cons_of_mem _ hx))]
    rw [List.count_append, count_singleton_str]
    have hc1 : (if seen.contains b then lines
        else lines ++ [(objGet g.cells b).elim [] nodeText]).count (edgeLine pa qa) =
        lines.count (edgeLine pa qa) := by
      split
      · rfl
      · rw [List.count_append, count_singleton_str,
          beq_eq_false_iff_ne.mpr hnode1, if_neg Bool.false_ne_true]
        omega
    have hc2 : (if seen.contains cell.address then
          (if seen.contains b then lines
            else lines ++ [(objGet g.cells b).elim [] nodeText])
        else (if seen.contains b then lines
            else lines ++ [(objGet g.cells b).elim [] nodeText]) ++
          [nodeText cell]).count (edgeLine pa qa) =
        lines.count (edgeLine pa qa) := by
      split
      · exact hc1
      · rw [List.count_append, hc1, count_singleton_str,
          beq_eq_false_iff_ne.mpr hnode2, if_neg Bool.false_ne_true]
        omega
    rw [hc2]
    by_cases hqa : cell.address = qa
    · rw [if_pos hqa, if_pos hqa, List.count_cons]
      by_cases hpb : pa = b
      · have hbeq : (edgeLine b cell.address == edgeLine pa qa) = true := by
          rw [hpb, hqa]
          exact beq_self_eq_true _
        rw [hbeq, beq_iff_eq.mpr hpb.symm]
        omega
      · have hbeq : (edgeLine b cell.address == edgeLine pa qa) = false := by
          refine beq_eq_false_iff_ne.mpr (fun he => hpb ?_)
          exact ((edgeLine_inj hbalnum hpa1 he).1).symm
        rw [hbeq, beq_eq_false_iff_ne.mpr (fun he => hpb he.symm)]
        omega
    · rw [if_neg hqa, if_neg hqa]
      have hbeq : (edgeLine b cell.address == edgeLine pa qa) = false := by
        refine beq_eq_false_iff_ne.mpr (fun he => hqa ?_)
        exact (edgeLine_inj hbalnum hpa1 he).2
      rw [hbeq, if_neg Bool.false_ne_true]

theorem contains_iff_mem (l : List Str) (x : Str) : l.contains x = true ↔ x ∈ l :=
  List.elem_iff

theorem count_snoc_le (l : List Str) (x na : Str) :
    (l ++ [x]).count na ≤ l.count na + 1 := by
  rw [List.count_append, count_singleton_str]
  split <;> omega

theorem count_snoc_ne {x na : Str} (hx : x ≠ na) (l : List Str) :
    (l ++ [x]).count na = l.count na := by
  rw [List.count_append, count_singleton_str, beq_eq_false_iff_ne.mpr hx,
    if_neg Bool.false_ne_true]
  omega

/-- `mermaid_inner_edge` restated over an arbitrary pair-typed state. -/
theorem mermaid_inner_edge_st (g : Grid) (pa qa : Str)
    (hpa1 : ∀ ch ∈ pa, keyChar ch = true)
    (cell : CellData)
    (hcelladdr : ∀ ch ∈ cell.address, keyChar ch = true)
    (halnum : ∀ p ∈ g.cells, ∀ ch ∈ p.1, keyChar ch = true)
    (hkeys : ∀ p ∈ g.cells, p.1 = p.2.address)
    (bs : List Str) (st : List Str × List Str)
    (hbs : ∀ b ∈ bs, b ∈ g.cells.map (·.1)) :
    (List.foldl (mermaidMatchStep g cell) st bs).1.count (edgeLine pa qa) =
      st.1.count (edgeLine pa qa) +
        (if cell.address = qa then bs.count pa else 0) :=
  mermaid_inner_edge g pa qa hpa1 cell hcelladdr halnum hkeys bs st.1 st.2 hbs

/-- Outer mermaid loop, counting copies of one edge line: each processed
cell contributes `1` exactly when it has a formula, sits at the edge's
target address, and its formula contains the source address followed by
a closing brace. -/
theorem mermaid_outer_edge (g : Grid) (pa qa : Str)
    (hpa1 : ∀ ch ∈ pa, keyChar ch = true)
    (halnum : ∀ p ∈ g.cells, ∀ ch ∈ p.1, keyChar ch = true)
    (hkeys : ∀ p ∈ g.cells, p.1 = p.2.address)
    (hnd : (g.cells.map (·.1)).Nodup)
    (hpamem : pa ∈ g.cells.map (·.1)) :
    ∀ (ps : List (Str × CellData)) (st : List Str × List Str),
      (∀ p ∈ ps, p ∈ g.cells) →
      (List.foldl (mermaidCellStep g) st ps).1.count (edgeLine pa qa) =
        st.1.count (edgeLine pa qa) +
          (ps.map (fun p => if p.2.formula ≠ [] ∧ p.2.address = qa ∧
              containsSub (pa ++ ['\x7d']) p.2.formula = true then 1 else 0)).sum := by
  intro ps
  induction ps with
  | nil =>
    intro st _
    simp
  | cons p rest ih =>
    intro st hps
    rw [List.foldl_cons, List.map_cons, List.sum_cons]
    have hpmem := hps p (List.mem_cons_self p rest)
    have hcelladdr : ∀ ch ∈ p.2.address, keyChar ch = true := by
      intro ch hch
      exact halnum p hpmem ch (by rw [hkeys p hpmem]; exact hch)
    have hbody : mermaidCellStep g st p =
        (if p.2.formula == [] then st
         else List.foldl (mermaidMatchStep g p.2) st
           ((g.cells.map (·.1)).filter
             (fun x => containsSub (x ++ ['\x7d']) p.2.formula))) := rfl
    by_cases hf : p.2.formula = []
    · rw [hbody, if_pos (beq_iff_eq.mpr hf),
        ih st (fun x hx => hps x (List.mem_cons_of_mem _ hx)),
        if_neg (fun hc => hc.1 hf)]
      omega
    · have hfilt : ∀ b ∈ (g.cells.map (·.1)).filter
          (fun x => containsSub (x ++ ['\x7d']) p.2.formula), b ∈ g.cells.map (·.1) :=
        fun b hb => (List.mem_filter.mp hb).1
      rw [hbody, if_neg (fun hc => hf (beq_iff_eq.mp hc)),
        ih (List.foldl (mermaidMatchStep g p.2) st
          ((g.cells.map (·.1)).filter
            (fun x => containsSub (x ++ ['\x7d']) p.2.formula)))
          (fun x hx => hps x (List.mem_cons_of_mem _ hx)),
        mermaid_inner_edge_st g pa qa hpa1 p.2 hcelladdr halnum hkeys _ st hfilt]
      have hcount : ((g.cells.map (·.1)).filter
          (fun x => containsSub (x ++ ['\x7d']) p.2.formula)).count pa =
          if containsSub (pa ++ ['\x7d']) p.2.formula = true then 1 else 0 := by
        rw [count_filter_str pa _ (g.cells.map (·.1)),
          count_eq_one_of_nodup_mem hnd hpamem]
      rw [hcount]
      by_cases haq : p.2.address = qa
      · rw [if_pos haq]
        by_cases hcs : containsSub (pa ++ ['\x7d']) p.2.formula = true
        · rw [if_pos hcs, if_pos ⟨hf, haq, hcs⟩]
          omega
        · rw [if_neg hcs, if_neg (fun hc => hcs hc.2.2)]
          omega
      · rw [if_neg haq, if_neg (fun hc => haq hc.2.1)]
        omega

/-- One inner mermaid iteration preserves the node-count invariant: the
number of copies of a given nonempty node line stays below the
seen-indicator of its address, provided the loop never processes the
formula cell's own address. -/
theorem mermaid_node_step (g : Grid) (ca : CellData)
    (hcaal : ∀ ch ∈ ca.address, keyChar ch = true)
    (hna : nodeText ca ≠ [])
    (cell : CellData)
    (hcelladdr : ∀ ch ∈ cell.address, keyChar ch = true)
    (halnum : ∀ p ∈ g.cells, ∀ ch ∈ p.1, keyChar ch = true)
    (hkeys : ∀ p ∈ g.cells, p.1 = p.2.address)
    (b : Str) (hbne : b ≠ cell.address)
    (st : List Str × List Str)
    (hP : st.1.count (nodeText ca) ≤ (if ca.address ∈ st.2 then 1 else 0)) :
    (mermaidMatchStep g cell st b).1.count (nodeText ca) ≤
      (if ca.address ∈ (mermaidMatchStep g cell st b).2 then 1 else 0) := by
  have hbpush : (objGet g.cells b).elim [] nodeText = nodeText ca → b = ca.address := by
    intro hv
    cases ho : objGet g.cells b with
    | none =>
      rw [ho] at hv
      exact absurd hv.symm hna
    | some cb =>
      rw [ho] at hv
      have hv2 : nodeText cb = nodeText ca := hv
      have hm := objGet_some_mem ho
      have hcb : ∀ ch ∈ cb.address, keyChar ch = true := by
        intro ch hch
        exact halnum (b, cb) hm ch (by rw [hkeys (b, cb) hm]; exact hch)
      have hne2 : nodeText cb ≠ [] := by rw [hv2]; exact hna
      have hadr := nodeText_addr_inj hcb hcaal hne2 hv2
      have hb : b = cb.address := hkeys (b, cb) hm
      rw [hb]
      exact hadr
  have hcellpush : nodeText cell = nodeText ca → cell.address = ca.address := by
    intro hv
    exact nodeText_addr_inj hcelladdr hcaal (by rw [hv]; exact hna) hv
  have hstep : mermaidMatchStep g cell st b =
      ((if st.2.contains cell.address then
          (if st.2.contains b then st.1
            else st.1 ++ [(objGet g.cells b).elim [] nodeText])
        else (if st.2.contains b then st.1
            else st.1 ++ [(objGet g.cells b).elim [] nodeText]) ++
          [nodeText cell]) ++ [edgeLine b cell.address],
       cell.address :: b :: st.2) := rfl
  rw [hstep, count_snoc_ne (edgeLine_ne_nodeText hcaal)]
  by_cases hmem : ca.address ∈ st.2
  · rw [if_pos (List.mem_cons_of_mem _ (List.mem_cons_of_mem _ hmem))]
    rw [if_pos hmem] at hP
    have hvbcont : (objGet g.cells b).elim [] nodeText = nodeText ca →
        st.2.contains b = true :=
      fun hv => (contains_iff_mem st.2 b).mpr (by rw [hbpush hv]; exact hmem)
    have hcccont : nodeText cell = nodeText ca →
        st.2.contains cell.address = true :=
      fun hv => (contains_iff_mem st.2 cell.address).mpr
        (by rw [hcellpush hv]; exact hmem)
    split
    · split
      · exact hP
      · rename_i hcont
        by_cases hv : (objGet g.cells b).elim [] nodeText = nodeText ca
        · exact absurd (hvbcont hv) hcont
        · rw [count_snoc_ne hv]
          exact hP
    · rename_i hcontc
      by_cases hv2 : nodeText cell = nodeText ca
      · exact absurd (hcccont hv2) hcontc
      · rw [count_snoc_ne hv2]
        split
        · exact hP
        · rename_i hcont
          by_cases hv : (objGet g.cells b).elim [] nodeText = nodeText ca
          · exact absurd (hvbcont hv) hcont
          · rw [count_snoc_ne hv]
            exact hP
  · rw [if_neg hmem] at hP
    have h0 : st.1.count (nodeText ca) = 0 := Nat.le_zero.mp hP
    by_cases hcb : ca.address = b
    · rw [if_pos (List.mem_cons_of_mem _ (List.mem_cons.mpr (Or.inl hcb)))]
      have hccne : nodeText cell ≠ nodeText ca :=
        fun hv => hbne (hcb.symm.trans (hcellpush hv).symm)
      split
      · split
        · omega
        · exact le_trans (count_snoc_le _ _ _) (by omega)
      · rw [count_snoc_ne hccne]
        split
        · omega
        · exact le_trans (count_snoc_le _ _ _) (by omega)
    · by_cases hcc : ca.address = cell.address
      · rw [if_pos (List.mem_cons.mpr (Or.inl hcc))]
        have hvbne : (objGet g.cells b).elim [] nodeText ≠ nodeText ca :=
          fun hv => hcb (hbpush hv).symm
        split
        · split
          · omega
          · rw [count_snoc_ne hvbne]
            omega
        · split
          · exact le_trans (count_snoc_le _ _ _) (by omega)
          · have hin : (st.1 ++ [(objGet g.cells b).elim [] nodeText]).count
                (nodeText ca) = 0 := by
              rw [count_snoc_ne hvbne]
              exact h0
            exact le_trans (count_snoc_le _ _ _) (by omega)
      · have hnotin : ca.address ∉ cell.address :: b :: st.2 := by
          intro h
          rcases List.mem_cons.mp h with h1 | h2
          · exact hcc h1
          rcases List.mem_cons.mp h2 with h3 | h4
          · exact hcb h3
          · exact hmem h4
        rw [if_neg hnotin]
        have hvbne : (objGet g.cells b).elim [] nodeText ≠ nodeText ca :=
          fun hv => hcb (hbpush hv).symm
        have hccne : nodeText cell ≠ nodeText ca :=
          fun hv => hcc (hcellpush hv).symm
        split
        · split
          · omega
          · rw [count_snoc_ne hvbne]
            omega
        · rw [count_snoc_ne hccne]
          split
          · omega
          · rw [count_snoc_ne hvbne]
            omega

theorem mermaid_inner_node (g : Grid) (ca : CellData)
    (hcaal : ∀ ch ∈ ca.address, keyChar ch = true)
    (hna : nodeText ca ≠ [])
    (cell : CellData)
    (hcelladdr : ∀ ch ∈ cell.address, keyChar ch = true)
    (halnum : ∀ p ∈ g.cells, ∀ ch ∈ p.1, keyChar ch = true)
    (hkeys : ∀ p ∈ g.cells, p.1 = p.2.address) :
    ∀ (bs : List Str) (st : List Str × List Str),
      (∀ b ∈ bs, b ≠ cell.address) →
      st.1.count (nodeText ca) ≤ (if ca.address ∈ st.2 then 1 else 0) →
      (List.foldl (mermaidMatchStep g cell) st bs).1.count (nodeText ca) ≤
        (if ca.address ∈ (List.foldl (mermaidMatchStep g cell) st bs).2
         then 1 else 0) := by
  intro bs
  induction bs with
  | nil =>
    intro st _ hP
    exact hP
  | cons b rest ih =>
    intro st hbne hP
    rw [List.foldl_cons]
    exact ih _ (fun x hx => hbne x (List.mem_cons_of_mem _ hx))
      (mermaid_node_step g ca hcaal hna cell hcelladdr halnum hkeys b
        (hbne b (List.mem_cons_self b rest)) st hP)

/-- Outer mermaid loop preserves the node-count invariant when no cell's
formula references its own address. -/
theorem mermaid_outer_node (g : Grid) (ca : CellData)
    (hcaal : ∀ ch ∈ ca.address, keyChar ch = true)
    (hna : nodeText ca ≠ [])
    (halnum : ∀ p ∈ g.cells, ∀ ch ∈ p.1, keyChar ch = true)
    (hkeys : ∀ p ∈ g.cells, p.1 = p.2.address)
    (hnoself : ∀ p ∈ g.cells, containsSub (p.1 ++ ['\x7d']) p.2.formula = false) :
    ∀ (ps : List (Str × CellData)) (st : List Str × List Str),
      (∀ p ∈ ps, p ∈ g.cells) →
      st.1.count (nodeText ca) ≤ (if ca.address ∈ st.2 then 1 else 0) →
      (List.foldl (mermaidCellStep g) st ps).1.count (nodeText ca) ≤
        (if ca.address ∈ (List.foldl (mermaidCellStep g) st ps).2
         then 1 else 0) := by
  intro ps
  induction ps with
  | nil =>
    intro st _ hP
    exact hP
  | cons p rest ih =>
    intro st hps hP
    rw [List.foldl_cons]
    refine ih _ (fun x hx => hps x (List.mem_cons_of_mem _ hx)) ?_
    have hpmem := hps p (List.mem_cons_self p rest)
    have hcelladdr : ∀ ch ∈ p.2.address, keyChar ch = true := by
      intro ch hch
      exact halnum p hpmem ch (by rw [hkeys p hpmem]; exact hch)
    have hbody : mermaidCellStep g st p =
        (if p.2.formula == [] then st
         else List.foldl (mermaidMatchStep g p.2) st
           ((g.cells.map (·.1)).filter
             (fun x => containsSub (x ++ ['\x7d']) p.2.formula))) := rfl
    rw [hbody]
    split
    · exact hP
    · refine mermaid_inner_node g ca hcaal hna p.2 hcelladdr halnum hkeys
        _ st ?_ hP
      intro x hx hxe
      rcases List.mem_filter.mp hx with ⟨hxk, hxc⟩
      have hpk : p.1 = p.2.address := hkeys p hpmem
      have hcs : containsSub (p.1 ++ ['\x7d']) p.2.formula = true := by
        rw [hpk, ← hxe]
        exact hxc
      rw [hnoself p hpmem] at hcs
      exact Bool.false_ne_true hcs

/-- Sum over an object map (distinct keys) of a weight that vanishes away
from one key collapses to the weight of that key's entry. -/
theorem sum_single_key (f : Str × CellData → Nat) (qa : Str) (qc : CellData) :
    ∀ ps : List (Str × CellData), (∀ q ∈ ps, q.1 ≠ qa → f q = 0) →
      (ps.map (·.1)).Nodup → (qa, qc) ∈ ps → (ps.map f).sum = f (qa, qc) := by
  intro ps
  induction ps with
  | nil =>
    intro _ _ h
    cases h
  | cons hd tl ih =>
    intro hz hnd hmem
    rw [List.map_cons] at hnd
    have hnd2 := List.nodup_cons.mp hnd
    rw [List.map_cons, List.sum_cons]
    rcases List.mem_cons.mp hmem with h | h
    · subst h
      have hz0 : (tl.map f).sum = 0 := by
        apply List.sum_eq_zero
        intro x hx
        rcases List.mem_map.mp hx with ⟨q, hq, hfx⟩
        rw [← hfx]
        refine hz q (List.mem_cons_of_mem _ hq) ?_
        intro he
        exact hnd2.1 (he ▸ List.mem_map.mpr ⟨q, hq, rfl⟩)
      rw [hz0]
      omega
    · have hhd : f hd = 0 := by
        refine hz hd (List.mem_cons_self hd tl) ?_
        intro he
        apply hnd2.1
        rw [he]
        exact List.mem_map.mpr ⟨(qa, qc), h, rfl⟩
      rw [hhd, ih (fun q hq => hz q (List.mem_cons_of_mem _ hq)) hnd2.2 h]
      omega

theorem C10_witness :
    (getCellData ⟨str "C1", none, .plain (str "5"), str "A1+1"⟩ (str "S")
        [str "S"] 1 2).value ≠ [] ∧
    (getCellData ⟨str "C1", none, .plain (str "5"), str "A1+1"⟩ (str "S")
        [str "S"] 1 2).formula ≠ [] ∧
    (guessOf (getCellData ⟨str "C1", none, .plain (str "5"), str "A1+1"⟩ (str "S")
        [str "S"] 1 2)).guesstimateType = str "FUNCTION" ∧
    (guessOf (getCellData ⟨str "C1", none, .plain (str "5"), str "A1+1"⟩ (str "S")
        [str "S"] 1 2)).expression =
      (getCellData ⟨str "C1", none, .plain (str "5"), str "A1+1"⟩ (str "S")
        [str "S"] 1 2).formula :=
  C10_theorem _ _ _ _ _ (by decide) (by decide) (by decide)

/-! ### Symbolic evaluation of the regex-replacement driver, used for the
multi-sheet normalization (claim C2). -/

theorem rxRepl_nil_out (m : Matcher) (rend : MRes → Str) :
    ∀ (fuel : Nat) (prev : Option Char), rxRepl m rend fuel prev [] = [] := by
  intro fuel prev
  cases fuel <;> rfl

theorem rxRepl_step_none {m : Matcher} {rend : MRes → Str} {prev : Option Char}
    {c : Char} {cs : Str} (h : m prev (c :: cs) = none) (fuel : Nat) :
    rxRepl m rend (fuel + 1) prev (c :: cs) = c :: rxRepl m rend fuel (some c) cs := by
  show (match m prev (c :: cs) with
    | some r =>
      if r.whole == [] then c :: rxRepl m rend fuel (some c) cs
      else rend r ++ rxRepl m rend fuel r.whole.getLast? r.rest
    | none => c :: rxRepl m rend fuel (some c) cs) =
    c :: rxRepl m rend fuel (some c) cs
  rw [h]

theorem rxRepl_step_some {m : Matcher} {rend : MRes → Str} {prev : Option Char}
    {c : Char} {cs : Str} {r : MRes} (h : m prev (c :: cs) = some r)
    (hw : (r.whole == ([] : Str)) = false) (fuel : Nat) :
    rxRepl m rend (fuel + 1) prev (c :: cs) =
      rend r ++ rxRepl m rend fuel r.whole.getLast? r.rest := by
  show (match m prev (c :: cs) with
    | some r =>
      if r.whole == [] then c :: rxRepl m rend fuel (some c) cs
      else rend r ++ rxRepl m rend fuel r.whole.getLast? r.rest
    | none => c :: rxRepl m rend fuel (some c) cs) =
    rend r ++ rxRepl m rend fuel r.whole.getLast? r.rest
  rw [h]
  show (if r.whole == [] then c :: rxRepl m rend fuel (some c) cs
    else rend r ++ rxRepl m rend fuel r.whole.getLast? r.rest) = _
  rw [hw, if_neg Bool.false_ne_true]

theorem rxRepl_step_cont {m : Matcher} {rend : MRes → Str} {c : Char} {t X : Str}
    (hn : ∀ prev, m prev (c :: t) = none)
    (hcont : ∀ fuel, t.length < fuel → rxRepl m rend fuel (some c) t = X) :
    ∀ (fuel : Nat) (prev : Option Char), (c :: t).length < fuel →
      rxRepl m rend fuel prev (c :: t) = c :: X := by
  intro fuel prev h
  cases fuel with
  | zero => exact absurd h (by omega)
  | succ F =>
    rw [rxRepl_step_none (hn prev) F,
      hcont F (by rw [List.length_cons] at h; omega)]

theorem rxRepl_step_at {m : Matcher} {rend : MRes → Str} {p c : Char} {t X : Str}
    (hn : m (some p) (c :: t) = none)
    (hcont : ∀ fuel, t.length < fuel → rxRepl m rend fuel (some c) t = X) :
    ∀ fuel : Nat, (c :: t).length < fuel →
      rxRepl m rend fuel (some p) (c :: t) = c :: X := by
  intro fuel h
  cases fuel with
  | zero => exact absurd h (by omega)
  | succ F =>
    rw [rxRepl_step_none hn F, hcont F (by rw [List.length_cons] at h; omega)]

theorem rxRepl_match_cont {m : Matcher} {rend : MRes → Str} {p c : Char} {cs : Str}
    {r : MRes} {X : Str}
    (hm : m (some p) (c :: cs) = some r) (hw : (r.whole == ([] : Str)) = false)
    (hlt : r.rest.length < (c :: cs).length)
    (hcont : ∀ fuel, r.rest.length < fuel →
      rxRepl m rend fuel r.whole.getLast? r.rest = X) :
    ∀ fuel : Nat, (c :: cs).length < fuel →
      rxRepl m rend fuel (some p) (c :: cs) = rend r ++ X := by
  intro fuel h
  cases fuel with
  | zero => exact absurd h (by omega)
  | succ F =>
    rw [rxRepl_step_some hm hw F, hcont F (by omega)]

theorem rxRepl_walk_class {m : Matcher} {rend : MRes → Str} {P : Char → Bool}
    (hn : ∀ (prev : Option Char) (c : Char) (cs : Str), P c = true →
      m prev (c :: cs) = none) :
    ∀ (xs : Str), (∀ c ∈ xs, P c = true) →
    ∀ {t X : Str}, (∀ fuel prev, t.length < fuel → rxRepl m rend fuel prev t = X) →
    ∀ (fuel : Nat) (prev : Option Char), (xs ++ t).length < fuel →
      rxRepl m rend fuel prev (xs ++ t) = xs ++ X := by
  intro xs
  induction xs with
  | nil =>
    intro _ t X hcont fuel prev h
    exact hcont fuel prev h
  | cons c cs ih =>
    intro hP t X hcont fuel prev h
    cases fuel with
    | zero => exact absurd h (by omega)
    | succ F =>
      rw [List.cons_append,
        rxRepl_step_none (hn prev c (cs ++ t) (hP c (List.mem_cons_self c cs))) F,
        ih (fun x hx => hP x (List.mem_cons_of_mem _ hx)) hcont F (some c)
          (by rw [List.cons_append, List.length_cons] at h; omega),
        List.cons_append]

theorem rxRepl_walk_class_nil {m : Matcher} {rend : MRes → Str} {P : Char → Bool}
    (hn : ∀ (prev : Option Char) (c : Char) (cs : Str), P c = true →
      m prev (c :: cs) = none) :
    ∀ (xs : Str), (∀ c ∈ xs, P c = true) →
    ∀ (fuel : Nat) (prev : Option Char), xs.length < fuel →
      rxRepl m rend fuel prev xs = xs := by
  intro xs hP fuel prev h
  have h2 : (xs ++ []).length < fuel := by rw [List.append_nil]; exact h
  have hres := rxRepl_walk_class hn xs hP
    (fun fuel prev _ => rxRepl_nil_out m rend fuel prev) fuel prev h2
  rw [List.append_nil] at hres
  exact hres

theorem digit_toUpper {c : Char} (h : c.isDigit = true) : c.toUpper = c := by
  unfold Char.isDigit at h
  simp only [Bool.and_eq_true, decide_eq_true_eq] at h
  have h48 : (48:UInt32).toNat ≤ c.val.toNat := h.1
  have h57 : c.val.toNat ≤ (57:UInt32).toNat := h.2
  have e48 : (48:UInt32).toNat = 48 := rfl
  have e57 : (57:UInt32).toNat = 57 := rfl
  unfold Char.toUpper
  dsimp only
  rw [if_neg]
  intro hl
  have h1 : c.toNat = c.val.toNat := rfl
  rw [h1] at hl
  omega

theorem digit_not_upper {c : Char} (h : c.isDigit = true) : c.isUpper = false := by
  unfold Char.isDigit at h
  unfold Char.isUpper
  simp only [Bool.and_eq_true, decide_eq_true_eq] at h
  have h57 : c.val.toNat ≤ (57:UInt32).toNat := h.2
  simp only [Bool.and_eq_false_iff, decide_eq_false_iff_not]
  left
  intro hu
  have h65 : (65:UInt32).toNat ≤ c.val.toNat := hu
  have e57 : (57:UInt32).toNat = 57 := rfl
  have e65 : (65:UInt32).toNat = 65 := rfl
  omega

theorem digit_ne {c q : Char} (h : c.isDigit = true) (hq : q.isDigit = false) : c ≠ q :=
  fun he => by rw [he, hq] at h; exact Bool.false_ne_true h

theorem digit_toUpper_ne_of {c : Char} (hc : c.isDigit = true) {u : Char}
    (hu : u.isDigit = false) : c.toUpper ≠ u := by
  rw [digit_toUpper hc]
  exact digit_ne hc hu

theorem tws_split {p : Char → Bool} :
    ∀ (d : Str), (∀ x ∈ d, p x = true) → ∀ {e : Char}, p e = false → ∀ (t : Str),
      takeWhileSplit p (d ++ e :: t) = (d, e :: t) := by
  intro d
  induction d with
  | nil =>
    intro _ e he t
    rw [List.nil_append]
    unfold takeWhileSplit
    dsimp only
    rw [if_neg (by rw [he]; exact Bool.false_ne_true)]
  | cons c cs ih =>
    intro hd e he t
    rw [List.cons_append]
    have hr := ih (fun x hx => hd x (List.mem_cons_of_mem _ hx)) he t
    unfold takeWhileSplit
    dsimp only
    rw [if_pos (hd c (List.mem_cons_self c cs)), hr]

theorem tws_all {p : Char → Bool} :
    ∀ (d : Str), (∀ x ∈ d, p x = true) → takeWhileSplit p d = (d, []) := by
  intro d
  induction d with
  | nil => intro _; rfl
  | cons c cs ih =>
    intro hd
    unfold takeWhileSplit
    dsimp only
    rw [if_pos (hd c (List.mem_cons_self c cs)),
      ih (fun x hx => hd x (List.mem_cons_of_mem _ hx))]

theorem matchAddrU_none_nonupper {c : Char} (hc : c.isUpper = false) (cs : Str) :
    matchAddrU (c :: cs) = none := by
  simp only [matchAddrU]
  rw [if_neg (by rw [hc]; exact Bool.false_ne_true)]

theorem matchAddrU_none_nondigit {c c2 : Char} (h2 : c2.isDigit = false) (cs : Str) :
    matchAddrU (c :: c2 :: cs) = none := by
  simp only [matchAddrU]
  by_cases hc : c.isUpper = true
  · rw [if_pos hc]
    have hsplit : takeWhileSplit Char.isDigit (c2 :: cs) = ([], c2 :: cs) := by
      unfold takeWhileSplit
      rw [if_neg (by rw [h2]; exact Bool.false_ne_true)]
    rw [hsplit]
  · rw [if_neg hc]

theorem matchAddrU_pos {c : Char} (hc : c.isUpper = true) {d : Str}
    (hd : ∀ x ∈ d, x.isDigit = true) (hdne : d ≠ []) {e : Char} (he : e.isDigit = false)
    (t : Str) : matchAddrU (c :: (d ++ e :: t)) = some (c :: d, e :: t) := by
  cases d with
  | nil => exact absurd rfl hdne
  | cons x xs =>
    simp only [matchAddrU]
    rw [if_pos hc, tws_split (x :: xs) hd he t]

theorem matchAddrU_pos_end {c : Char} (hc : c.isUpper = true) {d : Str}
    (hd : ∀ x ∈ d, x.isDigit = true) (hdne : d ≠ []) :
    matchAddrU (c :: d) = some (c :: d, []) := by
  cases d with
  | nil => exact absurd rfl hdne
  | cons x xs =>
    simp only [matchAddrU]
    rw [if_pos hc, tws_all (x :: xs) hd]

theorem bm_none_nonupper {c : Char} (hc : c.isUpper = false) (prev : Option Char)
    (cs : Str) : bareRefNoBangM prev (c :: cs) = none := by
  unfold bareRefNoBangM bareRefM
  split
  · rfl
  · rw [matchAddrU_none_nonupper hc]
    rfl

theorem bm_none_nondigit {c c2 : Char} (h2 : c2.isDigit = false) (prev : Option Char)
    (cs : Str) : bareRefNoBangM prev (c :: c2 :: cs) = none := by
  unfold bareRefNoBangM bareRefM
  split
  · rfl
  · rw [matchAddrU_none_nondigit h2]
    rfl

theorem bm_none_bang (s : Str) : bareRefNoBangM (some '!') s = none := by
  unfold bareRefNoBangM
  rw [if_pos (beq_self_eq_true (some '!'))]

theorem bm_some {prev : Option Char} (hprev : (prev == some '!') = false)
    {c : Char} (hc : c.isUpper = true) {d : Str} (hd : ∀ x ∈ d, x.isDigit = true)
    (hdne : d ≠ []) {e : Char} (he : e.isDigit = false) (t : Str) :
    bareRefNoBangM prev (c :: (d ++ e :: t)) =
      some ⟨c :: d, [c :: d], e :: t⟩ := by
  unfold bareRefNoBangM bareRefM
  rw [if_neg (by rw [hprev]; exact Bool.false_ne_true),
    matchAddrU_pos hc hd hdne he t]
  rfl

theorem cons_beq_cons_char (a b : Char) (l m : Str) :
    ((a :: l) == (b :: m)) = (a == b && l == m) := rfl

theorem takeCI_exact (pat rest : Str) : takeCI pat (pat ++ rest) = some (pat, rest) := by
  unfold takeCI
  dsimp only
  rw [List.take_left, List.drop_left, beq_self_eq_true, beq_self_eq_true]
  rfl

theorem takeCI_none1 {q : Char} {qr : Str} {c : Char} {cs : Str}
    (h : c.toUpper ≠ q.toUpper) : takeCI (q :: qr) (c :: cs) = none := by
  unfold takeCI
  dsimp only
  have hb : (toUpperStr ((c :: cs).take (q :: qr).length) == toUpperStr (q :: qr)) =
      false := by
    rw [List.length_cons, List.take_succ_cons]
    show ((c.toUpper :: toUpperStr (cs.take qr.length)) ==
      (q.toUpper :: toUpperStr qr)) = false
    rw [cons_beq_cons_char, beq_eq_false_iff_ne.mpr h, Bool.false_and]
  rw [hb, Bool.and_false, if_neg Bool.false_ne_true]

theorem takeCI_none2 {q0 q1 : Char} {qr : Str} {c0 c1 : Char} {cs : Str}
    (h : c1.toUpper ≠ q1.toUpper) : takeCI (q0 :: q1 :: qr) (c0 :: c1 :: cs) = none := by
  unfold takeCI
  dsimp only
  have hb : (toUpperStr ((c0 :: c1 :: cs).take (q0 :: q1 :: qr).length) ==
      toUpperStr (q0 :: q1 :: qr)) = false := by
    rw [List.length_cons, List.length_cons, List.take_succ_cons, List.take_succ_cons]
    show ((c0.toUpper :: c1.toUpper :: toUpperStr (cs.take qr.length)) ==
      (q0.toUpper :: q1.toUpper :: toUpperStr qr)) = false
    rw [cons_beq_cons_char, cons_beq_cons_char, beq_eq_false_iff_ne.mpr h,
      Bool.false_and, Bool.and_false]
  rw [hb, Bool.and_false, if_neg Bool.false_ne_true]

theorem ci_some_exact {pat : Str} (hne : pat ≠ []) (rest : Str) (prev : Option Char) :
    ciLitM pat prev (pat ++ rest) = some ⟨pat, [], rest⟩ := by
  unfold ciLitM
  rw [if_neg (fun hx => hne (beq_iff_eq.mp hx)), takeCI_exact pat rest]

theorem ci_none1 {q : Char} {qr : Str} {c : Char} {cs : Str} (h : c.toUpper ≠ q.toUpper)
    (prev : Option Char) : ciLitM (q :: qr) prev (c :: cs) = none := by
  unfold ciLitM
  rw [if_neg (fun hx => List.cons_ne_nil q qr (beq_iff_eq.mp hx)), takeCI_none1 h]

theorem ci_none2 {q0 q1 : Char} {qr : Str} {c0 c1 : Char} {cs : Str}
    (h : c1.toUpper ≠ q1.toUpper) (prev : Option Char) :
    ciLitM (q0 :: q1 :: qr) prev (c0 :: c1 :: cs) = none := by
  unfold ciLitM
  rw [if_neg (fun hx => List.cons_ne_nil q0 (q1 :: qr) (beq_iff_eq.mp hx)),
    takeCI_none2 h]

theorem isPfx_head_ne {p c : Char} (h : p ≠ c) (pr cs : Str) :
    isPfx (p :: pr) (c :: cs) = false := by
  unfold isPfx
  rw [beq_eq_false_iff_ne.mpr h, Bool.false_and]

theorem isPfx_self_append : ∀ (p t : Str), isPfx p (p ++ t) = true := by
  intro p
  induction p with
  | nil => intro t; rfl
  | cons c cs ih =>
    intro t
    rw [List.cons_append]
    unfold isPfx
    rw [beq_self_eq_true, ih t, Bool.true_and]

theorem lp_none_head {p : Char} {pr : Str} {c : Char} {cs : Str} (h : p ≠ c)
    (prev : Option Char) : litPfxRefM (p :: pr) prev (c :: cs) = none := by
  unfold litPfxRefM
  rw [isPfx_head_ne h, if_neg Bool.false_ne_true]

theorem lp_some {pfx : Str} {c : Char} (hc : c.isUpper = true) {d : Str}
    (hd : ∀ x ∈ d, x.isDigit = true) (hdne : d ≠ []) {e : Char} (he : e.isDigit = false)
    (t : Str) (prev : Option Char) :
    litPfxRefM pfx prev (pfx ++ (c :: (d ++ e :: t))) =
      some ⟨pfx ++ (c :: d), [pfx ++ (c :: d)], e :: t⟩ := by
  unfold litPfxRefM
  rw [if_pos (isPfx_self_append pfx _), List.drop_left,
    matchAddrU_pos hc hd hdne he t]
  rfl

theorem lp_some_end {pfx : Str} {c : Char} (hc : c.isUpper = true) {d : Str}
    (hd : ∀ x ∈ d, x.isDigit = true) (hdne : d ≠ []) (prev : Option Char) :
    litPfxRefM pfx prev (pfx ++ (c :: d)) =
      some ⟨pfx ++ (c :: d), [pfx ++ (c :: d)], []⟩ := by
  unfold litPfxRefM
  rw [if_pos (isPfx_self_append pfx _), List.drop_left, matchAddrU_pos_end hc hd hdne]
  rfl

/-- Walking the tail `+Beta!B<digits>` under the bare-reference matcher:
no match fires (the `B` of `Beta` is followed by a non-digit, and the `B`
after `!` is blocked by the negative lookbehind). -/
theorem walk1_bm (rend : MRes → Str) (d2 : Str) (h2 : ∀ c ∈ d2, c.isDigit = true) :
    ∀ (fuel : Nat) (prev : Option Char),
      ('+' :: 'B' :: 'e' :: 't' :: 'a' :: '!' :: 'B' :: d2).length < fuel →
      rxRepl bareRefNoBangM rend fuel prev
          ('+' :: 'B' :: 'e' :: 't' :: 'a' :: '!' :: 'B' :: d2) =
        '+' :: 'B' :: 'e' :: 't' :: 'a' :: '!' :: 'B' :: d2 := by
  have hn_nonupper : ∀ (prev : Option Char) (c : Char) (cs : Str),
      (c.isUpper == false) = true → bareRefNoBangM prev (c :: cs) = none :=
    fun prev c cs h => bm_none_nonupper (beq_iff_eq.mp h) prev cs
  have w_d2 : ∀ (fuel : Nat) (prev : Option Char), d2.length < fuel →
      rxRepl bareRefNoBangM rend fuel prev d2 = d2 :=
    rxRepl_walk_class_nil hn_nonupper d2
      (fun c hc => beq_iff_eq.mpr (digit_not_upper (h2 c hc)))
  have w_B2 := rxRepl_step_at (bm_none_bang ('B' :: d2))
    (fun fuel h => w_d2 fuel (some 'B') h)
  have w_bang := rxRepl_step_cont
    (fun prev => bm_none_nonupper (by decide : ('!' : Char).isUpper = false) prev ('B' :: d2))
    w_B2
  have w_a := rxRepl_step_cont
    (fun prev => bm_none_nonupper (by decide : ('a' : Char).isUpper = false) prev
      ('!' :: 'B' :: d2))
    (fun fuel h => w_bang fuel (some 'a') h)
  have w_t := rxRepl_step_cont
    (fun prev => bm_none_nonupper (by decide : ('t' : Char).isUpper = false) prev
      ('a' :: '!' :: 'B' :: d2))
    (fun fuel h => w_a fuel (some 't') h)
  have w_e := rxRepl_step_cont
    (fun prev => bm_none_nonupper (by decide : ('e' : Char).isUpper = false) prev
      ('t' :: 'a' :: '!' :: 'B' :: d2))
    (fun fuel h => w_t fuel (some 'e') h)
  have w_B1 := rxRepl_step_cont
    (fun prev => bm_none_nondigit (by decide : ('e' : Char).isDigit = false) prev
      ('t' :: 'a' :: '!' :: 'B' :: d2))
    (fun fuel h => w_e fuel (some 'B') h)
  exact rxRepl_step_cont
    (fun prev => bm_none_nonupper (by decide : ('+' : Char).isUpper = false) prev
      ('B' :: 'e' :: 't' :: 'a' :: '!' :: 'B' :: d2))
    (fun fuel h => w_B1 fuel (some '+') h)

/-- Stage 1 of the multi-sheet normalization on `=A<d1>+Beta!B<d2>`: the
bare-reference pass prefixes exactly the bare `A<d1>` with `Alpha!`. -/
theorem C2_stage1 (d1 d2 : Str) (h1 : ∀ c ∈ d1, c.isDigit = true) (h1ne : d1 ≠ [])
    (h2 : ∀ c ∈ d2, c.isDigit = true) :
    rxReplAll bareRefNoBangM
        (fun r => ('A' :: 'l' :: 'p' :: 'h' :: 'a' :: '!' :: ([] : Str)) ++ r.whole)
        ('=' :: 'A' :: (d1 ++ '+' :: 'B' :: 'e' :: 't' :: 'a' :: '!' :: 'B' :: d2)) =
      '=' :: 'A' :: 'l' :: 'p' :: 'h' :: 'a' :: '!' :: 'A' ::
        (d1 ++ '+' :: 'B' :: 'e' :: 't' :: 'a' :: '!' :: 'B' :: d2) := by
  have w_main := rxRepl_match_cont
    (bm_some (by decide : ((some '=' : Option Char) == some '!') = false)
      (by decide : ('A' : Char).isUpper = true) h1 h1ne
      (by decide : ('+' : Char).isDigit = false)
      ('B' :: 'e' :: 't' :: 'a' :: '!' :: 'B' :: d2))
    (rfl)
    (by simp only [List.length_cons, List.length_append]; omega)
    (fun fuel h => walk1_bm
      (fun r => ('A' :: 'l' :: 'p' :: 'h' :: 'a' :: '!' :: ([] : Str)) ++ r.whole)
      d2 h2 fuel _ h)
  unfold rxReplAll
  rw [rxRepl_step_none
    (bm_none_nonupper (by decide : ('=' : Char).isUpper = false) none
      ('A' :: (d1 ++ '+' :: 'B' :: 'e' :: 't' :: 'a' :: '!' :: 'B' :: d2))) _]
  rw [w_main _ (by simp only [List.length_cons]; omega)]
  rw [List.append_assoc]
  rfl

/-- Walking the tail `+Beta!B<digits>` under the case-insensitive
`Alpha!` literal matcher: no position matches (`a` is followed by `!`,
not `l`). -/
theorem walk2_ci (rend : MRes → Str) (d2 : Str) (h2 : ∀ c ∈ d2, c.isDigit = true) :
    ∀ (fuel : Nat) (prev : Option Char),
      ('+' :: 'B' :: 'e' :: 't' :: 'a' :: '!' :: 'B' :: d2).length < fuel →
      rxRepl (ciLitM ('A' :: 'l' :: 'p' :: 'h' :: 'a' :: '!' :: ([] : Str))) rend fuel prev
          ('+' :: 'B' :: 'e' :: 't' :: 'a' :: '!' :: 'B' :: d2) =
        '+' :: 'B' :: 'e' :: 't' :: 'a' :: '!' :: 'B' :: d2 := by
  have hn_digit : ∀ (prev : Option Char) (c : Char) (cs : Str),
      Char.isDigit c = true →
      ciLitM ('A' :: 'l' :: 'p' :: 'h' :: 'a' :: '!' :: ([] : Str)) prev (c :: cs) = none :=
    fun prev c cs h => ci_none1 (digit_toUpper_ne_of h (by decide)) prev
  have w_d2 : ∀ (fuel : Nat) (prev : Option Char), d2.length < fuel →
      rxRepl (ciLitM ('A' :: 'l' :: 'p' :: 'h' :: 'a' :: '!' :: ([] : Str))) rend fuel
        prev d2 = d2 :=
    rxRepl_walk_class_nil hn_digit d2 h2
  have w_B2 := rxRepl_step_cont
    (fun prev => ci_none1 (by decide : ('B' : Char).toUpper ≠ ('A' : Char).toUpper) prev)
    (fun fuel h => w_d2 fuel (some 'B') h)
  have w_bang := rxRepl_step_cont
    (fun prev => ci_none1 (by decide : ('!' : Char).toUpper ≠ ('A' : Char).toUpper) prev)
    (fun fuel h => w_B2 fuel (some '!') h)
  have w_a := rxRepl_step_cont
    (fun prev => ci_none2 (by decide : ('!' : Char).toUpper ≠ ('l' : Char).toUpper) prev)
    (fun fuel h => w_bang fuel (some 'a') h)
  have w_t := rxRepl_step_cont
    (fun prev => ci_none1 (by decide : ('t' : Char).toUpper ≠ ('A' : Char).toUpper) prev)
    (fun fuel h => w_a fuel (some 't') h)
  have w_e := rxRepl_step_cont
    (fun prev => ci_none1 (by decide : ('e' : Char).toUpper ≠ ('A' : Char).toUpper) prev)
    (fun fuel h => w_t fuel (some 'e') h)
  have w_B1 := rxRepl_step_cont
    (fun prev => ci_none1 (by decide : ('B' : Char).toUpper ≠ ('A' : Char).toUpper) prev)
    (fun fuel h => w_e fuel (some 'B') h)
  exact rxRepl_step_cont
    (fun prev => ci_none1 (by decide : ('+' : Char).toUpper ≠ ('A' : Char).toUpper) prev)
    (fun fuel h => w_B1 fuel (some '+') h)

/-- Stage 2a: the case-insensitive rewrite of `Alpha!` prefixes replaces
the single occurrence by itself, leaving the string unchanged. -/
theorem C2_stage2a (d1 d2 : Str) (h1 : ∀ c ∈ d1, c.isDigit = true) (h1ne : d1 ≠ [])
    (h2 : ∀ c ∈ d2, c.isDigit = true) :
    rxReplAll (ciLitM ('A' :: 'l' :: 'p' :: 'h' :: 'a' :: '!' :: ([] : Str)))
        (fun _ => 'A' :: 'l' :: 'p' :: 'h' :: 'a' :: '!' :: ([] : Str))
        ('=' :: 'A' :: 'l' :: 'p' :: 'h' :: 'a' :: '!' :: 'A' ::
          (d1 ++ '+' :: 'B' :: 'e' :: 't' :: 'a' :: '!' :: 'B' :: d2)) =
      '=' :: 'A' :: 'l' :: 'p' :: 'h' :: 'a' :: '!' :: 'A' ::
        (d1 ++ '+' :: 'B' :: 'e' :: 't' :: 'a' :: '!' :: 'B' :: d2) := by
  cases d1 with
  | nil => exact absurd rfl h1ne
  | cons x d1' =>
    have hx : x.isDigit = true := h1 x (List.mem_cons_self x d1')
    have h1' : ∀ c ∈ d1', c.isDigit = true :=
      fun c hc => h1 c (List.mem_cons_of_mem _ hc)
    have hn_digit : ∀ (prev : Option Char) (c : Char) (cs : Str),
        Char.isDigit c = true →
        ciLitM ('A' :: 'l' :: 'p' :: 'h' :: 'a' :: '!' :: ([] : Str)) prev (c :: cs) =
          none :=
      fun prev c cs h => ci_none1 (digit_toUpper_ne_of h (by decide)) prev
    have wT := walk2_ci (fun _ => 'A' :: 'l' :: 'p' :: 'h' :: 'a' :: '!' :: ([] : Str))
      d2 h2
    have w_xd1' : ∀ (fuel : Nat) (prev : Option Char),
        ((x :: d1') ++ '+' :: 'B' :: 'e' :: 't' :: 'a' :: '!' :: 'B' :: d2).length < fuel →
        rxRepl (ciLitM ('A' :: 'l' :: 'p' :: 'h' :: 'a' :: '!' :: ([] : Str)))
            (fun _ => 'A' :: 'l' :: 'p' :: 'h' :: 'a' :: '!' :: ([] : Str)) fuel prev
            ((x :: d1') ++ '+' :: 'B' :: 'e' :: 't' :: 'a' :: '!' :: 'B' :: d2) =
          (x :: d1') ++ '+' :: 'B' :: 'e' :: 't' :: 'a' :: '!' :: 'B' :: d2 :=
      rxRepl_walk_class hn_digit (x :: d1') (fun c hc => h1 c hc) wT
    have w_Ax : ∀ (fuel : Nat) (prev : Option Char),
        ('A' :: ((x :: d1') ++ '+' :: 'B' :: 'e' :: 't' :: 'a' :: '!' :: 'B' :: d2)).length
            < fuel →
        rxRepl (ciLitM ('A' :: 'l' :: 'p' :: 'h' :: 'a' :: '!' :: ([] : Str)))
            (fun _ => 'A' :: 'l' :: 'p' :: 'h' :: 'a' :: '!' :: ([] : Str)) fuel prev
            ('A' :: ((x :: d1') ++ '+' :: 'B' :: 'e' :: 't' :: 'a' :: '!' :: 'B' :: d2)) =
          'A' :: ((x :: d1') ++ '+' :: 'B' :: 'e' :: 't' :: 'a' :: '!' :: 'B' :: d2) :=
      rxRepl_step_cont
        (fun prev => ci_none2
          (digit_toUpper_ne_of hx (by decide : (('l' : Char).toUpper).isDigit = false))
          prev)
        (fun fuel h => w_xd1' fuel (some 'A') h)
    have hm : ciLitM ('A' :: 'l' :: 'p' :: 'h' :: 'a' :: '!' :: ([] : Str)) (some '=')
        ('A' :: 'l' :: 'p' :: 'h' :: 'a' :: '!' :: 'A' ::
          ((x :: d1') ++ '+' :: 'B' :: 'e' :: 't' :: 'a' :: '!' :: 'B' :: d2)) =
        some ⟨'A' :: 'l' :: 'p' :: 'h' :: 'a' :: '!' :: ([] : Str), [],
          'A' :: ((x :: d1') ++ '+' :: 'B' :: 'e' :: 't' :: 'a' :: '!' :: 'B' :: d2)⟩ :=
      ci_some_exact (by decide)
        ('A' :: ((x :: d1') ++ '+' :: 'B' :: 'e' :: 't' :: 'a' :: '!' :: 'B' :: d2))
        (some '=')
    have w_main := rxRepl_match_cont hm rfl
      (by simp only [List.length_cons, List.length_append]; omega)
      (fun fuel h => w_Ax fuel _ h)
    unfold rxReplAll
    rw [rxRepl_step_none
      (ci_none1 (by decide : ('=' : Char).toUpper ≠ ('A' : Char).toUpper) none) _]
    rw [w_main _ (by simp only [List.length_cons]; omega)]
    rfl

/-- Walking the tail `+Beta!B<digits>` under the literal `Alpha!` prefix
matcher: no position starts with `A`. -/
theorem walk2_lp (rend : MRes → Str) (d2 : Str) (h2 : ∀ c ∈ d2, c.isDigit = true) :
    ∀ (fuel : Nat) (prev : Option Char),
      ('+' :: 'B' :: 'e' :: 't' :: 'a' :: '!' :: 'B' :: d2).length < fuel →
      rxRepl (litPfxRefM ('A' :: 'l' :: 'p' :: 'h' :: 'a' :: '!' :: ([] : Str))) rend
          fuel prev ('+' :: 'B' :: 'e' :: 't' :: 'a' :: '!' :: 'B' :: d2) =
        '+' :: 'B' :: 'e' :: 't' :: 'a' :: '!' :: 'B' :: d2 := by
  have hn_digit : ∀ (prev : Option Char) (c : Char) (cs : Str),
      Char.isDigit c = true →
      litPfxRefM ('A' :: 'l' :: 'p' :: 'h' :: 'a' :: '!' :: ([] : Str)) prev (c :: cs) =
        none :=
    fun prev c cs h =>
      lp_none_head (Ne.symm (digit_ne h (by decide : ('A' : Char).isDigit = false))) prev
  have w_d2 : ∀ (fuel : Nat) (prev : Option Char), d2.length < fuel →
      rxRepl (litPfxRefM ('A' :: 'l' :: 'p' :: 'h' :: 'a' :: '!' :: ([] : Str))) rend fuel
        prev d2 = d2 :=
    rxRepl_walk_class_nil hn_digit d2 h2
  have w_B2 := rxRepl_step_cont
    (fun prev => lp_none_head (by decide : ('A' : Char) ≠ 'B') prev)
    (fun fuel h => w_d2 fuel (some 'B') h)
  have w_bang := rxRepl_step_cont
    (fun prev => lp_none_head (by decide : ('A' : Char) ≠ '!') prev)
    (fun fuel h => w_B2 fuel (some '!') h)
  have w_a := rxRepl_step_cont
    (fun prev => lp_none_head (by decide : ('A' : Char) ≠ 'a') prev)
    (fun fuel h => w_bang fuel (some 'a') h)
  have w_t := rxRepl_step_cont
    (fun prev => lp_none_head (by decide : ('A' : Char) ≠ 't') prev)
    (fun fuel h => w_a fuel (some 't') h)
  have w_e := rxRepl_step_cont
    (fun prev => lp_none_head (by decide : ('A' : Char) ≠ 'e') prev)
    (fun fuel h => w_t fuel (some 'e') h)
  have w_B1 := rxRepl_step_cont
    (fun prev => lp_none_head (by decide : ('A' : Char) ≠ 'B') prev)
    (fun fuel h => w_e fuel (some 'B') h)
  exact rxRepl_step_cont
    (fun prev => lp_none_head (by decide : ('A' : Char) ≠ '+') prev)
    (fun fuel h => w_B1 fuel (some '+') h)

/-- Stage 2b: the wrapping pass for `Alpha!` wraps the single prefixed
reference `Alpha!A<d1>` in one placeholder and touches nothing else. -/
theorem C2_stage2b (d1 d2 : Str) (h1 : ∀ c ∈ d1, c.isDigit = true) (h1ne : d1 ≠ [])
    (h2 : ∀ c ∈ d2, c.isDigit = true) :
    rxReplAll (litPfxRefM ('A' :: 'l' :: 'p' :: 'h' :: 'a' :: '!' :: ([] : Str)))
        wrapRender
        ('=' :: 'A' :: 'l' :: 'p' :: 'h' :: 'a' :: '!' :: 'A' ::
          (d1 ++ '+' :: 'B' :: 'e' :: 't' :: 'a' :: '!' :: 'B' :: d2)) =
      '=' :: '$' :: '\x7b' :: 'm' :: 'e' :: 't' :: 'r' :: 'i' :: 'c' :: ':' ::
        'A' :: 'l' :: 'p' :: 'h' :: 'a' :: '!' :: 'A' ::
        (d1 ++ '\x7d' :: '+' :: 'B' :: 'e' :: 't' :: 'a' :: '!' :: 'B' :: d2) := by
  cases d1 with
  | nil => exact absurd rfl h1ne
  | cons x d1' =>
    have wT := walk2_lp wrapRender d2 h2
    have hm : litPfxRefM ('A' :: 'l' :: 'p' :: 'h' :: 'a' :: '!' :: ([] : Str)) (some '=')
        ('A' :: 'l' :: 'p' :: 'h' :: 'a' :: '!' :: 'A' ::
          ((x :: d1') ++ '+' :: 'B' :: 'e' :: 't' :: 'a' :: '!' :: 'B' :: d2)) =
        some ⟨'A' :: 'l' :: 'p' :: 'h' :: 'a' :: '!' :: 'A' :: x :: d1',
          ['A' :: 'l' :: 'p' :: 'h' :: 'a' :: '!' :: 'A' :: x :: d1'],
          '+' :: 'B' :: 'e' :: 't' :: 'a' :: '!' :: 'B' :: d2⟩ :=
      lp_some (by decide : ('A' : Char).isUpper = true) h1 h1ne
        (by decide : ('+' : Char).isDigit = false)
        ('B' :: 'e' :: 't' :: 'a' :: '!' :: 'B' :: d2) (some '=')
    have w_main := rxRepl_match_cont hm rfl
      (by simp only [List.length_cons, List.length_append]; omega)
      (fun fuel h => wT fuel _ h)
    unfold rxReplAll
    rw [rxRepl_step_none (lp_none_head (by decide : ('A' : Char) ≠ '=') none) _]
    rw [w_main _ (by simp only [List.length_cons]; omega)]
    simp only [wrapRender, List.append_assoc, List.cons_append]
    rfl

/-- Stage 3a: the case-insensitive rewrite of `Beta!` prefixes replaces
the single occurrence by itself, leaving the string unchanged. -/
theorem C2_stage3a (d1 d2 : Str) (h1 : ∀ c ∈ d1, c.isDigit = true)
    (h2 : ∀ c ∈ d2, c.isDigit = true) (h2ne : d2 ≠ []) :
    rxReplAll (ciLitM ('B' :: 'e' :: 't' :: 'a' :: '!' :: ([] : Str)))
        (fun _ => 'B' :: 'e' :: 't' :: 'a' :: '!' :: ([] : Str))
        ('=' :: '$' :: '\x7b' :: 'm' :: 'e' :: 't' :: 'r' :: 'i' :: 'c' :: ':' ::
          'A' :: 'l' :: 'p' :: 'h' :: 'a' :: '!' :: 'A' ::
          (d1 ++ '\x7d' :: '+' :: 'B' :: 'e' :: 't' :: 'a' :: '!' :: 'B' :: d2)) =
      '=' :: '$' :: '\x7b' :: 'm' :: 'e' :: 't' :: 'r' :: 'i' :: 'c' :: ':' ::
        'A' :: 'l' :: 'p' :: 'h' :: 'a' :: '!' :: 'A' ::
        (d1 ++ '\x7d' :: '+' :: 'B' :: 'e' :: 't' :: 'a' :: '!' :: 'B' :: d2) := by
  cases d2 with
  | nil => exact absurd rfl h2ne
  | cons y d2' =>
    have hy : y.isDigit = true := h2 y (List.mem_cons_self y d2')
    have h2' : ∀ c ∈ d2', c.isDigit = true :=
      fun c hc => h2 c (List.mem_cons_of_mem _ hc)
    have hn_digit : ∀ (prev : Option Char) (c : Char) (cs : Str),
        Char.isDigit c = true →
        ciLitM ('B' :: 'e' :: 't' :: 'a' :: '!' :: ([] : Str)) prev (c :: cs) = none :=
      fun prev c cs h => ci_none1
        (digit_toUpper_ne_of h (by decide : (('B' : Char).toUpper).isDigit = false)) prev
    have w_yd2' : ∀ (fuel : Nat) (prev : Option Char), (y :: d2').length < fuel →
        rxRepl (ciLitM ('B' :: 'e' :: 't' :: 'a' :: '!' :: ([] : Str)))
          (fun _ => 'B' :: 'e' :: 't' :: 'a' :: '!' :: ([] : Str)) fuel prev (y :: d2') =
          y :: d2' :=
      rxRepl_walk_class_nil hn_digit (y :: d2') (fun c hc => h2 c hc)
    have w_B2 := rxRepl_step_cont
      (fun prev => ci_none2
        (digit_toUpper_ne_of hy (by decide : (('e' : Char).toUpper).isDigit = false)) prev)
      (fun fuel h => w_yd2' fuel (some 'B') h)
    have hm : ciLitM ('B' :: 'e' :: 't' :: 'a' :: '!' :: ([] : Str)) (some '+')
        ('B' :: 'e' :: 't' :: 'a' :: '!' :: 'B' :: y :: d2') =
        some ⟨'B' :: 'e' :: 't' :: 'a' :: '!' :: ([] : Str), [], 'B' :: y :: d2'⟩ :=
      ci_some_exact (by decide) ('B' :: y :: d2') (some '+')
    have w_match := rxRepl_match_cont hm rfl
      (by simp only [List.length_cons]; omega)
      (fun fuel h => w_B2 fuel _ h)
    have w_plus := rxRepl_step_cont
      (fun prev => ci_none1 (by decide : ('+' : Char).toUpper ≠ ('B' : Char).toUpper) prev)
      w_match
    have w_brace := rxRepl_step_cont
      (fun prev => ci_none1
        (by decide : ('\x7d' : Char).toUpper ≠ ('B' : Char).toUpper) prev)
      (fun fuel h => w_plus fuel (some '\x7d') h)
    have w_d1 : ∀ (fuel : Nat) (prev : Option Char),
        (d1 ++ '\x7d' :: '+' :: 'B' :: 'e' :: 't' :: 'a' :: '!' :: 'B' :: y :: d2').length
          < fuel →
        rxRepl (ciLitM ('B' :: 'e' :: 't' :: 'a' :: '!' :: ([] : Str)))
          (fun _ => 'B' :: 'e' :: 't' :: 'a' :: '!' :: ([] : Str)) fuel prev
          (d1 ++ '\x7d' :: '+' :: 'B' :: 'e' :: 't' :: 'a' :: '!' :: 'B' :: y :: d2') =
          d1 ++ '\x7d' :: '+' :: 'B' :: 'e' :: 't' :: 'a' :: '!' :: 'B' :: y :: d2' :=
      rxRepl_walk_class hn_digit d1 h1 w_brace
    have hn_pre : ∀ (prev : Option Char) (c : Char) (cs : Str),
        decide (c.toUpper ≠ ('B' : Char).toUpper) = true →
        ciLitM ('B' :: 'e' :: 't' :: 'a' :: '!' :: ([] : Str)) prev (c :: cs) = none :=
      fun prev c cs h => ci_none1 (of_decide_eq_true h) prev
    have w_pre : ∀ (fuel : Nat) (prev : Option Char),
        ('$' :: '\x7b' :: 'm' :: 'e' :: 't' :: 'r' :: 'i' :: 'c' :: ':' ::
          'A' :: 'l' :: 'p' :: 'h' :: 'a' :: '!' :: 'A' ::
          (d1 ++ '\x7d' :: '+' :: 'B' :: 'e' :: 't' :: 'a' :: '!' :: 'B' :: y :: d2')).length
          < fuel →
        rxRepl (ciLitM ('B' :: 'e' :: 't' :: 'a' :: '!' :: ([] : Str)))
          (fun _ => 'B' :: 'e' :: 't' :: 'a' :: '!' :: ([] : Str)) fuel prev
          ('$' :: '\x7b' :: 'm' :: 'e' :: 't' :: 'r' :: 'i' :: 'c' :: ':' ::
            'A' :: 'l' :: 'p' :: 'h' :: 'a' :: '!' :: 'A' ::
            (d1 ++ '\x7d' :: '+' :: 'B' :: 'e' :: 't' :: 'a' :: '!' :: 'B' :: y :: d2')) =
          '$' :: '\x7b' :: 'm' :: 'e' :: 't' :: 'r' :: 'i' :: 'c' :: ':' ::
            'A' :: 'l' :: 'p' :: 'h' :: 'a' :: '!' :: 'A' ::
            (d1 ++ '\x7d' :: '+' :: 'B' :: 'e' :: 't' :: 'a' :: '!' :: 'B' :: y :: d2') :=
      rxRepl_walk_class hn_pre
        ('$' :: '\x7b' :: 'm' :: 'e' :: 't' :: 'r' :: 'i' :: 'c' :: ':' ::
          'A' :: 'l' :: 'p' :: 'h' :: 'a' :: '!' :: 'A' :: ([] : Str))
        (by decide) w_d1
    unfold rxReplAll
    rw [rxRepl_step_none
      (ci_none1 (by decide : ('=' : Char).toUpper ≠ ('B' : Char).toUpper) none) _]
    rw [w_pre _ (some '=') (by simp only [List.length_cons]; omega)]

/-- Stage 3b: the wrapping pass for `Beta!` wraps the single prefixed
reference `Beta!B<d2>` (at the end of the formula) in one placeholder. -/
theorem C2_stage3b (d1 d2 : Str) (h1 : ∀ c ∈ d1, c.isDigit = true)
    (h2 : ∀ c ∈ d2, c.isDigit = true) (h2ne : d2 ≠ []) :
    rxReplAll (litPfxRefM ('B' :: 'e' :: 't' :: 'a' :: '!' :: ([] : Str))) wrapRender
        ('=' :: '$' :: '\x7b' :: 'm' :: 'e' :: 't' :: 'r' :: 'i' :: 'c' :: ':' ::
          'A' :: 'l' :: 'p' :: 'h' :: 'a' :: '!' :: 'A' ::
          (d1 ++ '\x7d' :: '+' :: 'B' :: 'e' :: 't' :: 'a' :: '!' :: 'B' :: d2)) =
      '=' :: '$' :: '\x7b' :: 'm' :: 'e' :: 't' :: 'r' :: 'i' :: 'c' :: ':' ::
        'A' :: 'l' :: 'p' :: 'h' :: 'a' :: '!' :: 'A' ::
        (d1 ++ '\x7d' :: '+' :: '$' :: '\x7b' :: 'm' :: 'e' :: 't' :: 'r' :: 'i' ::
          'c' :: ':' :: 'B' :: 'e' :: 't' :: 'a' :: '!' :: 'B' :: (d2 ++ ['\x7d'])) := by
  cases d2 with
  | nil => exact absurd rfl h2ne
  | cons y d2' =>
    have hm : litPfxRefM ('B' :: 'e' :: 't' :: 'a' :: '!' :: ([] : Str)) (some '+')
        ('B' :: 'e' :: 't' :: 'a' :: '!' :: 'B' :: y :: d2') =
        some ⟨'B' :: 'e' :: 't' :: 'a' :: '!' :: 'B' :: y :: d2',
          ['B' :: 'e' :: 't' :: 'a' :: '!' :: 'B' :: y :: d2'], []⟩ :=
      lp_some_end (by decide : ('B' : Char).isUpper = true) h2 h2ne (some '+')
    have w_match := rxRepl_match_cont hm rfl
      (by simp only [List.length_cons, List.length_nil]; omega)
      (fun fuel h => rxRepl_nil_out
        (litPfxRefM ('B' :: 'e' :: 't' :: 'a' :: '!' :: ([] : Str))) wrapRender fuel _)
    have w_plus := rxRepl_step_cont
      (fun prev => lp_none_head (by decide : ('B' : Char) ≠ '+') prev)
      w_match
    have w_brace := rxRepl_step_cont
      (fun prev => lp_none_head (by decide : ('B' : Char) ≠ '\x7d') prev)
      (fun fuel h => w_plus fuel (some '\x7d') h)
    have hn_pre : ∀ (prev : Option Char) (c : Char) (cs : Str),
        decide (('B' : Char) ≠ c) = true →
        litPfxRefM ('B' :: 'e' :: 't' :: 'a' :: '!' :: ([] : Str)) prev (c :: cs) = none :=
      fun prev c cs h => lp_none_head (of_decide_eq_true h) prev
    have w_d1 : ∀ (fuel : Nat) (prev : Option Char),
        (d1 ++ '\x7d' :: '+' :: 'B' :: 'e' :: 't' :: 'a' :: '!' :: 'B' :: y :: d2').length
          < fuel →
        rxRepl (litPfxRefM ('B' :: 'e' :: 't' :: 'a' :: '!' :: ([] : Str))) wrapRender fuel
          prev (d1 ++ '\x7d' :: '+' :: 'B' :: 'e' :: 't' :: 'a' :: '!' :: 'B' :: y :: d2') =
          d1 ++ '\x7d' :: '+' ::
            (wrapRender ⟨'B' :: 'e' :: 't' :: 'a' :: '!' :: 'B' :: y :: d2',
              ['B' :: 'e' :: 't' :: 'a' :: '!' :: 'B' :: y :: d2'], []⟩ ++ []) :=
      rxRepl_walk_class hn_pre d1
        (fun c hc => decide_eq_true
          (Ne.symm (digit_ne (h1 c hc) (by decide : ('B' : Char).isDigit = false))))
        w_brace
    have w_pre : ∀ (fuel : Nat) (prev : Option Char),
        ('$' :: '\x7b' :: 'm' :: 'e' :: 't' :: 'r' :: 'i' :: 'c' :: ':' ::
          'A' :: 'l' :: 'p' :: 'h' :: 'a' :: '!' :: 'A' ::
          (d1 ++ '\x7d' :: '+' :: 'B' :: 'e' :: 't' :: 'a' :: '!' :: 'B' :: y :: d2')).length
          < fuel →
        rxRepl (litPfxRefM ('B' :: 'e' :: 't' :: 'a' :: '!' :: ([] : Str))) wrapRender fuel
          prev
          ('$' :: '\x7b' :: 'm' :: 'e' :: 't' :: 'r' :: 'i' :: 'c' :: ':' ::
            'A' :: 'l' :: 'p' :: 'h' :: 'a' :: '!' :: 'A' ::
            (d1 ++ '\x7d' :: '+' :: 'B' :: 'e' :: 't' :: 'a' :: '!' :: 'B' :: y :: d2')) =
          '$' :: '\x7b' :: 'm' :: 'e' :: 't' :: 'r' :: 'i' :: 'c' :: ':' ::
            'A' :: 'l' :: 'p' :: 'h' :: 'a' :: '!' :: 'A' ::
            (d1 ++ '\x7d' :: '+' ::
              (wrapRender ⟨'B' :: 'e' :: 't' :: 'a' :: '!' :: 'B' :: y :: d2',
                ['B' :: 'e' :: 't' :: 'a' :: '!' :: 'B' :: y :: d2'], []⟩ ++ [])) :=
      rxRepl_walk_class hn_pre
        ('$' :: '\x7b' :: 'm' :: 'e' :: 't' :: 'r' :: 'i' :: 'c' :: ':' ::
          'A' :: 'l' :: 'p' :: 'h' :: 'a' :: '!' :: 'A' :: ([] : Str))
        (by decide) w_d1
    unfold rxReplAll
    rw [rxRepl_step_none (lp_none_head (by decide : ('B' : Char) ≠ '=') none) _]
    rw [w_pre _ (some '=') (by simp only [List.length_cons]; omega)]
    simp only [wrapRender, List.append_assoc, List.cons_append, List.append_nil]
    rfl

/-- C2 (amended): on the two-sheet workbook `Alpha` / `Beta` (where no
sanitized sheet prefix is a suffix of another), the multi-sheet
normalization of `=A<d1>+Beta!B<d2>` on sheet `Alpha` prefixes the bare
reference with `Alpha!` exactly once, leaves the already-prefixed
`Beta!` reference unprefixed, and wraps each of the two references in
exactly one `$\x7bmetric:...\x7d` placeholder. -/
theorem C2_theorem (d1 d2 : Str) (h1 : ∀ c ∈ d1, c.isDigit = true) (h1ne : d1 ≠ [])
    (h2 : ∀ c ∈ d2, c.isDigit = true) (h2ne : d2 ≠ []) :
    normalizeMulti (str "Alpha") [str "Alpha", str "Beta"]
        ('=' :: 'A' :: (d1 ++ '+' :: 'B' :: 'e' :: 't' :: 'a' :: '!' :: 'B' :: d2)) =
      '=' :: '$' :: '\x7b' :: 'm' :: 'e' :: 't' :: 'r' :: 'i' :: 'c' :: ':' ::
        'A' :: 'l' :: 'p' :: 'h' :: 'a' :: '!' :: 'A' ::
        (d1 ++ '\x7d' :: '+' :: '$' :: '\x7b' :: 'm' :: 'e' :: 't' :: 'r' :: 'i' ::
          'c' :: ':' :: 'B' :: 'e' :: 't' :: 'a' :: '!' :: 'B' :: (d2 ++ ['\x7d'])) := by
  have hN : normalizeMulti (str "Alpha") [str "Alpha", str "Beta"]
      ('=' :: 'A' :: (d1 ++ '+' :: 'B' :: 'e' :: 't' :: 'a' :: '!' :: 'B' :: d2)) =
      sheetLoopStep (sheetLoopStep
        (rxReplAll bareRefNoBangM
          (fun r => ('A' :: 'l' :: 'p' :: 'h' :: 'a' :: '!' :: ([] : Str)) ++ r.whole)
          ('=' :: 'A' :: (d1 ++ '+' :: 'B' :: 'e' :: 't' :: 'a' :: '!' :: 'B' :: d2)))
        (str "Alpha")) (str "Beta") := rfl
  have hA : ∀ g : Str, sheetLoopStep g (str "Alpha") =
      rxReplAll (litPfxRefM ('A' :: 'l' :: 'p' :: 'h' :: 'a' :: '!' :: ([] : Str)))
        wrapRender
        (rxReplAll (ciLitM ('A' :: 'l' :: 'p' :: 'h' :: 'a' :: '!' :: ([] : Str)))
          (fun _ => 'A' :: 'l' :: 'p' :: 'h' :: 'a' :: '!' :: ([] : Str)) g) :=
    fun g => rfl
  have hB : ∀ g : Str, sheetLoopStep g (str "Beta") =
      rxReplAll (litPfxRefM ('B' :: 'e' :: 't' :: 'a' :: '!' :: ([] : Str))) wrapRender
        (rxReplAll (ciLitM ('B' :: 'e' :: 't' :: 'a' :: '!' :: ([] : Str)))
          (fun _ => 'B' :: 'e' :: 't' :: 'a' :: '!' :: ([] : Str)) g) :=
    fun g => rfl
  rw [hN, C2_stage1 d1 d2 h1 h1ne h2, hA, C2_stage2a d1 d2 h1 h1ne h2,
    C2_stage2b d1 d2 h1 h1ne h2, hB, C2_stage3a d1 d2 h1 h2 h2ne,
    C2_stage3b d1 d2 h1 h2 h2ne]

/-- Witness for C2 at `d1 = "1"`, `d2 = "23"`. -/
theorem C2_witness :
    normalizeMulti (str "Alpha") [str "Alpha", str "Beta"] (str "=A1+Beta!B23") =
      str "=$\x7bmetric:Alpha!A1\x7d+$\x7bmetric:Beta!B23\x7d" := by
  have h := C2_theorem ['1'] ['2', '3'] (by decide) (by decide) (by decide) (by decide)
  exact h

/-- C8 (amended): when every grid key consists of key characters (word
characters and `!` — the class covering both plain `A1` keys and
multi-sheet `Sheet1!A1` keys), equals its cell's address, the keys are
pairwise distinct, and no cell's formula contains its own address
followed by a closing brace, the mermaid graph declares each (nonempty)
node line at most once, and contains the edge `pa --> qa` for a cell at
`qa` exactly once precisely when that cell has a nonempty formula
containing `pa` followed by a closing brace. -/
theorem C8_theorem (g : Grid)
    (halnum : ∀ p ∈ g.cells, ∀ ch ∈ p.1, keyChar ch = true)
    (hkeys : ∀ p ∈ g.cells, p.1 = p.2.address)
    (hnd : (g.cells.map (·.1)).Nodup)
    (hnoself : ∀ p ∈ g.cells, containsSub (p.1 ++ ['\x7d']) p.2.formula = false) :
    (∀ p ∈ g.cells, nodeText p.2 ≠ [] →
        (gridToMermaidLines g).count (nodeText p.2) ≤ 1) ∧
    (∀ pa : Str, ∀ p ∈ g.cells, pa ∈ g.cells.map (·.1) →
        (gridToMermaidLines g).count (edgeLine pa p.1) =
          if p.2.formula ≠ [] ∧ containsSub (pa ++ ['\x7d']) p.2.formula = true
          then 1 else 0) := by
  constructor
  · intro p hp hna
    have hcaal : ∀ ch ∈ p.2.address, keyChar ch = true := by
      intro ch hch
      exact halnum p hp ch (by rw [hkeys p hp]; exact hch)
    have h := mermaid_outer_node g p.2 hcaal hna halnum hkeys hnoself g.cells
      ([], []) (fun x hx => hx) (by simp)
    unfold gridToMermaidLines
    refine le_trans h ?_
    split
    · exact le_refl 1
    · exact Nat.zero_le 1
  · intro pa p hp hpam
    have hpa1 : ∀ ch ∈ pa, keyChar ch = true := by
      rcases List.mem_map.mp hpam with ⟨q, hq, hqe⟩
      intro ch hch
      exact halnum q hq ch (by rw [hqe]; exact hch)
    unfold gridToMermaidLines
    rw [mermaid_outer_edge g pa p.1 hpa1 halnum hkeys hnd hpam g.cells ([], [])
      (fun x hx => hx)]
    have hz : ∀ q ∈ g.cells, q.1 ≠ p.1 →
        (fun r : Str × CellData => if r.2.formula ≠ [] ∧ r.2.address = p.1 ∧
          containsSub (pa ++ ['\x7d']) r.2.formula = true then 1 else 0) q = 0 := by
      intro q hq hne
      refine if_neg ?_
      intro hc
      exact hne ((hkeys q hq).trans hc.2.1)
    rw [sum_single_key
      (fun r : Str × CellData => if r.2.formula ≠ [] ∧ r.2.address = p.1 ∧
        containsSub (pa ++ ['\x7d']) r.2.formula = true then 1 else 0)
      p.1 p.2 g.cells hz hnd hp]
    dsimp only
    have haddr : p.2.address = p.1 := (hkeys p hp).symm
    by_cases hc : p.2.formula ≠ [] ∧ containsSub (pa ++ ['\x7d']) p.2.formula = true
    · rw [if_pos (show p.2.formula ≠ [] ∧ p.2.address = p.1 ∧
          containsSub (pa ++ ['\x7d']) p.2.formula = true from ⟨hc.1, haddr, hc.2⟩),
        if_pos hc]
      simp
    · rw [if_neg (show ¬(p.2.formula ≠ [] ∧ p.2.address = p.1 ∧
          containsSub (pa ++ ['\x7d']) p.2.formula = true) from
          fun hcc => hc ⟨hcc.1, hcc.2.2⟩),
        if_neg hc]
      simp

/-- Witness for C8 on a concrete two-cell grid with sheet-prefixed keys. -/
theorem C8_witness :
    (gridToMermaidLines gC8pair).count
        (nodeText ⟨str "S!B1", [], str "Out", str "=$\x7bmetric:S!A1\x7d+1", 1, 3⟩) ≤ 1 ∧
    (gridToMermaidLines gC8pair).count (edgeLine (str "S!A1") (str "S!B1")) =
      (if (str "=$\x7bmetric:S!A1\x7d+1" : Str) ≠ [] ∧
          containsSub (str "S!A1" ++ ['\x7d']) (str "=$\x7bmetric:S!A1\x7d+1") = true
        then 1 else 0) := by
  have h := C8_theorem gC8pair (by decide) (by decide) (by decide) (by decide)
  refine ⟨h.1 (str "S!B1", ⟨str "S!B1", [], str "Out", str "=$\x7bmetric:S!A1\x7d+1", 1, 3⟩)
      (by decide) (by decide), ?_⟩
  exact h.2 (str "S!A1")
    (str "S!B1", ⟨str "S!B1", [], str "Out", str "=$\x7bmetric:S!A1\x7d+1", 1, 3⟩)
    (by decide) (by decide)

end Ferminator
